import Mathlib

/-!
# Ladder & Reverse Pyramid Planner — verification of the core planning functions

Shallow embedding of the three planning functions of `src/src/App.jsx`
(`ladderPlan`, `rpPercentPlan`, `rpFixedDropPlan`) together with the two
rounding helpers (`round2`, `roundToNearest2point5`).

JavaScript numbers are modelled by `JSNum`: an exact rational for every
finite value, plus the three non-finite values `NaN`, `+Infinity` and
`-Infinity`.  Finite arithmetic is exact (rational); the source's two
floating-point fudge factors (`Number.EPSILON` inside `round2` and the
`1e-6` tolerance in the ladder loop) are kept literally, as the exact
rationals 2^-52 and 10^-6.  The semantics of the non-finite values
(propagation through `+ - * /`, `Math.round/floor/abs/min/max`,
comparisons returning `false` on NaN, falsiness of `NaN` and `0`) follows
the ECMAScript specification; negative zero is identified with zero,
which is unobservable in this program.
-/

/-- Model of a JavaScript number: an exact rational, or one of the three
non-finite values. -/
inductive JSNum where
  | num (q : ℚ)
  | nan
  | inf
  | ninf
deriving DecidableEq, Repr

namespace JSNum

/-- JS addition. -/
def add : JSNum → JSNum → JSNum
  | num a, num b => num (a + b)
  | nan, _ => nan
  | _, nan => nan
  | inf, ninf => nan
  | ninf, inf => nan
  | inf, _ => inf
  | _, inf => inf
  | ninf, _ => ninf
  | _, ninf => ninf

/-- JS unary minus. -/
def neg : JSNum → JSNum
  | num a => num (-a)
  | nan => nan
  | inf => ninf
  | ninf => inf

/-- JS subtraction (`a - b = a + (-b)`, which matches IEEE semantics on
the modelled values). -/
def sub (a b : JSNum) : JSNum := add a (neg b)

/-- JS multiplication of an infinity (`pos` gives its sign) by a finite
value: the result is a signed infinity, or NaN when the finite factor
is zero. -/
def mulInfNum (pos : Bool) (b : ℚ) : JSNum :=
  if 0 < b then (if pos then inf else ninf)
  else if b < 0 then (if pos then ninf else inf)
  else nan

/-- JS multiplication. -/
def mul : JSNum → JSNum → JSNum
  | num a, num b => num (a * b)
  | nan, _ => nan
  | _, nan => nan
  | inf, inf => inf
  | inf, ninf => ninf
  | ninf, inf => ninf
  | ninf, ninf => inf
  | inf, num b => mulInfNum true b
  | num a, inf => mulInfNum true a
  | ninf, num b => mulInfNum false b
  | num a, ninf => mulInfNum false a

/-- JS division. Division by (positive) zero gives a signed infinity,
`0/0` gives NaN, a finite value over an infinity gives `0`. -/
def div : JSNum → JSNum → JSNum
  | num a, num b =>
      if b = 0 then (if a = 0 then nan else if 0 < a then inf else ninf)
      else num (a / b)
  | nan, _ => nan
  | _, nan => nan
  | num _, inf => num 0
  | num _, ninf => num 0
  | inf, inf => nan
  | inf, ninf => nan
  | ninf, inf => nan
  | ninf, ninf => nan
  | inf, num b => if b < 0 then ninf else inf
  | ninf, num b => if b < 0 then inf else ninf

/-- Rounding of a rational to the nearest integer, halves toward `+∞`:
the behaviour of JS `Math.round` on finite values. -/
def roundQ (x : ℚ) : ℤ := ⌊x + 1 / 2⌋

/-- JS `Math.round`. -/
def round : JSNum → JSNum
  | num a => num (roundQ a)
  | nan => nan
  | inf => inf
  | ninf => ninf

/-- JS `Math.floor`. -/
def floor : JSNum → JSNum
  | num a => num ⌊a⌋
  | nan => nan
  | inf => inf
  | ninf => ninf

/-- JS `Math.abs`. -/
def abs : JSNum → JSNum
  | num a => num |a|
  | nan => nan
  | inf => inf
  | ninf => inf

/-- JS `Math.min` (NaN-propagating). -/
def min : JSNum → JSNum → JSNum
  | nan, _ => nan
  | _, nan => nan
  | ninf, _ => ninf
  | _, ninf => ninf
  | inf, b => b
  | a, inf => a
  | num a, num b => num (Min.min a b)

/-- JS `Math.max` (NaN-propagating). -/
def max : JSNum → JSNum → JSNum
  | nan, _ => nan
  | _, nan => nan
  | inf, _ => inf
  | _, inf => inf
  | ninf, b => b
  | a, ninf => a
  | num a, num b => num (Max.max a b)

/-- JS `<` (false whenever an operand is NaN). -/
def lt : JSNum → JSNum → Bool
  | nan, _ => false
  | _, nan => false
  | num a, num b => a < b
  | num _, inf => true
  | num _, ninf => false
  | inf, _ => false
  | ninf, ninf => false
  | ninf, _ => true

/-- JS `<=` (false whenever an operand is NaN). -/
def le : JSNum → JSNum → Bool
  | nan, _ => false
  | _, nan => false
  | num a, num b => a ≤ b
  | num _, inf => true
  | num _, ninf => false
  | inf, inf => true
  | inf, _ => false
  | ninf, _ => true

/-- JS `>`. -/
def gt (a b : JSNum) : Bool := lt b a

/-- JS strict equality `===` on numbers (`NaN === NaN` is false). -/
def seq : JSNum → JSNum → Bool
  | nan, _ => false
  | _, nan => false
  | a, b => a = b

/-- JS truthiness of a number: `0` and `NaN` are falsy, everything else
(including the infinities) is truthy. -/
def toBool : JSNum → Bool
  | num a => a ≠ 0
  | nan => false
  | inf => true
  | ninf => true

instance : OfNat JSNum n := ⟨num n⟩

end JSNum

open JSNum

/-- `Number.EPSILON`, exactly `2^-52`. -/
def epsJS : ℚ := 1 / 4503599627370496

/-- `round2` from the source: round to 2 decimal places after nudging by
`Number.EPSILON` (`Math.round((n + Number.EPSILON) * 100) / 100`). -/
def round2 (n : JSNum) : JSNum :=
  JSNum.div (JSNum.round (JSNum.mul (JSNum.add n (num epsJS)) (num 100))) (num 100)

/-- `roundToNearest2point5` from the source:
`Math.round(n / 2.5) * 2.5`. -/
def roundToNearest2point5 (n : JSNum) : JSNum :=
  JSNum.mul (JSNum.round (JSNum.div n (num (5 / 2)))) (num (5 / 2))

/-- The finite-value core of `roundToNearest2point5`. -/
def rstepQ (x : ℚ) : ℚ := (roundQ (x / (5 / 2)) : ℚ) * (5 / 2)

/-- The finite-value core of `round2`. -/
def round2Q (x : ℚ) : ℚ := (roundQ ((x + epsJS) * 100) : ℚ) / 100

/-- The bar weight constant `BAR` from the source. -/
def BAR : ℚ := 20

/-- One row of a ladder plan: `{ weight, reps }`, with the `external`
annotation added for pull-ups (absent on barbell rows). -/
structure LadderRow where
  weight : JSNum
  reps : JSNum
  external : Option JSNum := none
deriving DecidableEq, Repr

/-- Result shape of `ladderPlan`:
`{ sets, tonnage, start: {weight, reps} | null }`. -/
structure LadderPlanResult where
  sets : List LadderRow
  tonnage : JSNum
  start : Option (JSNum × JSNum)
deriving DecidableEq, Repr

/-- The start-point computation of `ladderPlan` (lines 42–70 of
`App.jsx`): returns `(startReps, startWeight)`. -/
def ladderStart (dailyMax increment startRepCap : JSNum) (isPullup : Bool) :
    JSNum × JSNum :=
  if isPullup then
    -- Pull-up ladder logic: bounded rung count from zero total weight.
    let maxRungsFromZero := JSNum.floor (JSNum.add 1 (JSNum.div dailyMax increment))
    let startReps := JSNum.max 1 (JSNum.min startRepCap maxRungsFromZero)
    let startWeight := JSNum.sub dailyMax (JSNum.mul increment (JSNum.sub startReps 1))
    let startWeight := if JSNum.lt startWeight 0 then 0 else startWeight
    (startReps, startWeight)
  else
    -- Barbell ladder logic: avoid going below the empty bar.
    let rawR0 := JSNum.add 1 (JSNum.div (JSNum.sub dailyMax (num BAR)) increment)
    let r0Rounded := JSNum.round rawR0
    if JSNum.le r0Rounded startRepCap && JSNum.le 1 r0Rounded then
      (r0Rounded, num BAR)
    else
      let startReps := startRepCap
      let startWeight := JSNum.sub dailyMax (JSNum.mul increment (JSNum.sub startReps 1))
      if JSNum.lt startWeight (num BAR) then
        let startWeight := num BAR
        let startReps :=
          JSNum.max 1 (JSNum.min startRepCap
            (JSNum.add 1 (JSNum.floor (JSNum.div (JSNum.sub dailyMax startWeight) increment))))
        (startReps, startWeight)
      else (startReps, startWeight)

/-- The ladder-construction `while` loop of `ladderPlan` (lines 73–82):
`while (reps >= 1 && w <= targetTop + 1e-6 && guard < 400)`.  The fuel
argument is `400 - guard`; the loop is entered with fuel `400`. -/
def buildLadder : ℕ → JSNum → JSNum → JSNum → JSNum → List LadderRow
  | 0, _, _, _, _ => []
  | fuel + 1, reps, w, increment, targetTop =>
    if JSNum.le 1 reps && JSNum.le w (JSNum.add targetTop (num (1 / 1000000))) then
      ⟨roundToNearest2point5 w, reps, none⟩ ::
        buildLadder fuel (JSNum.sub reps 1) (JSNum.add w increment) increment targetTop
    else []

/-- The fix-up after the loop (lines 85–88): append a final synthetic
single at `targetTop` unless the last rung is already a close single,
and only when `targetTop` exceeds the last rung's weight. -/
def appendFinal (sets : List LadderRow) (targetTop : JSNum) : List LadderRow :=
  match sets.getLast? with
  | none => sets ++ [⟨roundToNearest2point5 targetTop, 1, none⟩]
  | some last =>
    if JSNum.gt (JSNum.abs (JSNum.sub last.weight targetTop)) (num (5 / 2))
        || !(JSNum.seq last.reps 1) then
      if JSNum.gt targetTop last.weight then
        sets ++ [⟨roundToNearest2point5 targetTop, 1, none⟩]
      else sets
    else sets

/-- `ladderPlan` from the source (lines 37–102). -/
def ladderPlan (dailyMax increment : JSNum) (startRepCap : JSNum := num 12)
    (isPullup : Bool := false) (bodyweight : JSNum := num 80) : LadderPlanResult :=
  if !(JSNum.toBool dailyMax) || !(JSNum.toBool increment) then ⟨[], 0, none⟩
  else
    let targetTop := dailyMax
    let start := ladderStart dailyMax increment startRepCap isPullup
    let sets := buildLadder 400 start.1 start.2 increment targetTop
    let sets := appendFinal sets targetTop
    let tonnage :=
      round2 (sets.foldl (fun s r => JSNum.add s (JSNum.mul r.weight r.reps)) 0)
    let sets :=
      if isPullup then
        sets.map (fun r => { r with external := some (round2 (JSNum.sub r.weight bodyweight)) })
      else sets
    ⟨sets, tonnage, some (roundToNearest2point5 start.2, start.1)⟩

/-- Model of JS `parseInt` on the rep strings used by the percent plan
(`"1+"` … `"5+"`): the leading decimal digits, NaN when there are
none. -/
def parseIntLeading (s : String) : JSNum :=
  let ds := s.toList.takeWhile Char.isDigit
  if ds.isEmpty then nan
  else num ((ds.foldl (fun a c => a * 10 + (c.toNat - 48)) 0 : ℕ) : ℚ)

/-- `parseInt(x) || 0` from the source: NaN (and 0) collapse to 0. -/
def parseIntOrZero (s : String) : JSNum :=
  if JSNum.toBool (parseIntLeading s) then parseIntLeading s else 0

/-- One row of the percent plan: `{ weight, reps: "n+", note: "p%" }`. -/
structure PctRow where
  weight : JSNum
  reps : String
  note : String
deriving DecidableEq, Repr

/-- Result shape of `rpPercentPlan`. -/
structure PctPlanResult where
  sets : List PctRow
  tonnage : JSNum
  heavyReps : JSNum
deriving DecidableEq, Repr

/-- The fixed percent/reps scheme of `rpPercentPlan`; the note strings
are the literal results of the source's
`Math.round(s.pct * 100) + \x25` computation on these five
percentages. -/
def pctScheme : List (ℚ × String × String) :=
  [(9 / 10, "1+", "90%"), (17 / 20, "2+", "85%"), (4 / 5, "3+", "80%"),
   (3 / 4, "4+", "75%"), (7 / 10, "5+", "70%")]

/-- `rpPercentPlan` from the source (lines 104–121). -/
def rpPercentPlan (dailyMax : JSNum) : PctPlanResult :=
  if !(JSNum.toBool dailyMax) then ⟨[], 0, 0⟩
  else
    let sets := pctScheme.map (fun s =>
      PctRow.mk (roundToNearest2point5 (JSNum.mul (num s.1) dailyMax)) s.2.1 s.2.2)
    let tonnage :=
      round2 (sets.foldl (fun a b => JSNum.add a (JSNum.mul b.weight (parseIntOrZero b.reps))) 0)
    let heavyReps :=
      (sets.filter (fun s => JSNum.le (JSNum.mul (num (4 / 5)) dailyMax) s.weight)).foldl
        (fun a b => JSNum.add a (parseIntOrZero b.reps)) 0
    ⟨sets, tonnage, heavyReps⟩

/-- One back-off row of the fixed-drop plan.  The constant display
string `note: −drop kg` carries no data and is omitted from the
model. -/
structure DropRow where
  weight : JSNum
  reps : JSNum
deriving DecidableEq, Repr

/-- Result shape of `rpFixedDropPlan`. -/
structure DropPlanResult where
  topSingle : Option JSNum
  sets : List DropRow
  tonnage : JSNum
deriving DecidableEq, Repr

/-- The back-off loop of `rpFixedDropPlan` (lines 128–133):
`for (let i = 0; i < sets; i++) { w -= drop; if (w <= 0) break; push }`.
The rep target is `repScheme[i] ?? repScheme[repScheme.length - 1]`;
an out-of-range index on an empty scheme gives `undefined`, which is
modelled by NaN (its only use is as a multiplicand in the tonnage
sum, where `undefined` and NaN behave identically). -/
def dropRows (drop : JSNum) (repScheme : List ℚ) : ℕ → ℕ → JSNum → List DropRow
  | 0, _, _ => []
  | n + 1, i, w =>
    let w' := JSNum.sub w drop
    if JSNum.le w' 0 then []
    else
      let reps : JSNum :=
        match repScheme.get? i with
        | some r => num r
        | none =>
          match repScheme.getLast? with
          | some r => num r
          | none => nan
      ⟨roundToNearest2point5 w', reps⟩ :: dropRows drop repScheme n (i + 1) w'

/-- `rpFixedDropPlan` from the source (lines 123–136).  The `sets`
count is a natural number: the source's `for (let i = 0; i < sets; i++)`
over an integer count. -/
def rpFixedDropPlan (dailyMax : JSNum) (drop : JSNum := num 10) (sets : ℕ := 4)
    (repScheme : List ℚ := [3, 5, 7, 9]) : DropPlanResult :=
  if !(JSNum.toBool dailyMax) then ⟨none, [], 0⟩
  else
    let topSingle := roundToNearest2point5 (JSNum.mul (num (19 / 20)) dailyMax)
    let rows := dropRows drop repScheme sets 0 topSingle
    let tonnage :=
      round2 (JSNum.add (JSNum.mul topSingle 1)
        (rows.foldl (fun a b => JSNum.add a (JSNum.mul b.weight b.reps)) 0))
    ⟨some topSingle, rows, tonnage⟩

/-- The weight after `m` iterations of the ladder loop: `m`-fold
addition of the increment (specification device for reasoning about
`buildLadder`). -/
def iterAdd (w inc : JSNum) : ℕ → JSNum
  | 0 => w
  | m + 1 => JSNum.add (iterAdd w inc m) inc

/-- The rep count after `m` iterations of the ladder loop: `m`-fold
subtraction of `1`. -/
def iterSub (r : JSNum) : ℕ → JSNum
  | 0 => r
  | m + 1 => JSNum.sub (iterSub r m) 1

/-! ## Basic facts about the number model and the rounding helpers -/

namespace JSNum

@[simp] theorem ofNat_def (n : ℕ) [n.AtLeastTwo] :
    (OfNat.ofNat n : JSNum) = num (OfNat.ofNat n) := rfl

@[simp] theorem zero_def : (0 : JSNum) = num 0 := rfl

@[simp] theorem one_def : (1 : JSNum) = num 1 := rfl

@[simp] theorem add_num (a b : ℚ) : add (num a) (num b) = num (a + b) := rfl

@[simp] theorem sub_num (a b : ℚ) : sub (num a) (num b) = num (a - b) := by
  simp [sub, add, neg, sub_eq_add_neg]

@[simp] theorem mul_num (a b : ℚ) : mul (num a) (num b) = num (a * b) := rfl

theorem div_num (a b : ℚ) (hb : b ≠ 0) : div (num a) (num b) = num (a / b) := by
  simp [div, hb]

@[simp] theorem round_num (a : ℚ) : round (num a) = num (roundQ a) := rfl

@[simp] theorem floor_num (a : ℚ) : floor (num a) = num ⌊a⌋ := rfl

@[simp] theorem abs_num (a : ℚ) : abs (num a) = num |a| := rfl

@[simp] theorem min_num (a b : ℚ) : min (num a) (num b) = num (Min.min a b) := rfl

@[simp] theorem max_num (a b : ℚ) : max (num a) (num b) = num (Max.max a b) := rfl

@[simp] theorem le_num (a b : ℚ) : le (num a) (num b) = decide (a ≤ b) := rfl

@[simp] theorem lt_num (a b : ℚ) : lt (num a) (num b) = decide (a < b) := rfl

@[simp] theorem toBool_num (a : ℚ) : toBool (num a) = decide (a ≠ 0) := rfl

@[simp] theorem seq_num (a b : ℚ) : seq (num a) (num b) = decide (num a = num b) := rfl

@[simp] theorem le_num_nan (a : ℚ) : le (num a) nan = false := rfl

@[simp] theorem le_nan (x : JSNum) : le nan x = false := by cases x <;> rfl

@[simp] theorem lt_nan (x : JSNum) : lt nan x = false := by cases x <;> rfl

@[simp] theorem lt_num_nan (a : ℚ) : lt (num a) nan = false := rfl

@[simp] theorem le_num_inf (a : ℚ) : le (num a) inf = true := rfl

@[simp] theorem le_inf_inf : le inf inf = true := rfl

@[simp] theorem le_num_ninf (a : ℚ) : le (num a) ninf = false := rfl

@[simp] theorem le_ninf_num (a : ℚ) : le ninf (num a) = true := rfl

@[simp] theorem le_ninf_inf : le ninf inf = true := rfl

@[simp] theorem le_ninf_ninf : le ninf ninf = true := rfl

@[simp] theorem le_ninf_nan : le ninf nan = false := rfl

@[simp] theorem le_inf_num (a : ℚ) : le inf (num a) = false := rfl

@[simp] theorem lt_ninf_num (a : ℚ) : lt ninf (num a) = true := rfl

@[simp] theorem lt_inf (x : JSNum) : lt inf x = false := by
  cases x <;> rfl

@[simp] theorem lt_num_inf (a : ℚ) : lt (num a) inf = true := rfl

@[simp] theorem lt_num_ninf (a : ℚ) : lt (num a) ninf = false := rfl

@[simp] theorem add_nan (x : JSNum) : add nan x = nan := by cases x <;> rfl

@[simp] theorem add_nan_right (x : JSNum) : add x nan = nan := by cases x <;> rfl

@[simp] theorem add_inf_num (a : ℚ) : add inf (num a) = inf := rfl

@[simp] theorem add_num_inf (a : ℚ) : add (num a) inf = inf := rfl

@[simp] theorem add_ninf_num (a : ℚ) : add ninf (num a) = ninf := rfl

@[simp] theorem add_num_ninf (a : ℚ) : add (num a) ninf = ninf := rfl

@[simp] theorem toBool_nan : toBool nan = false := rfl

@[simp] theorem toBool_inf : toBool inf = true := rfl

@[simp] theorem toBool_ninf : toBool ninf = true := rfl

/-- A value bounded above by a finite JS number (in the JS `<=` sense)
is finite or `-Infinity`. -/
theorem le_num_cases {x : JSNum} {b : ℚ} (h : le x (num b) = true) :
    (∃ a, x = num a ∧ a ≤ b) ∨ x = ninf := by
  cases x with
  | num a => exact Or.inl ⟨a, rfl, by simpa using h⟩
  | nan => simp at h
  | inf => simp at h
  | ninf => exact Or.inr rfl

/-- A value bounded below by a finite JS number is finite or
`+Infinity`. -/
theorem num_le_cases {x : JSNum} {b : ℚ} (h : le (num b) x = true) :
    (∃ a, x = num a ∧ b ≤ a) ∨ x = inf := by
  cases x with
  | num a => exact Or.inl ⟨a, rfl, by simpa using h⟩
  | nan => simp at h
  | inf => exact Or.inr rfl
  | ninf => simp at h

end JSNum

theorem roundQ_le (x : ℚ) : (roundQ x : ℚ) ≤ x + 1 / 2 := Int.floor_le _

theorem lt_roundQ (x : ℚ) : x - 1 / 2 < (roundQ x : ℚ) := by
  have := Int.lt_floor_add_one (x + 1 / 2)
  have h : x + 1 / 2 < (roundQ x : ℚ) + 1 := this
  linarith

theorem roundQ_mono {x y : ℚ} (h : x ≤ y) : roundQ x ≤ roundQ y :=
  Int.floor_le_floor (by linarith)

theorem rstepQ_le (x : ℚ) : rstepQ x ≤ x + 5 / 4 := by
  have h := roundQ_le (x / (5 / 2))
  have hmul : (roundQ (x / (5 / 2)) : ℚ) * (5 / 2) ≤ (x / (5 / 2) + 1 / 2) * (5 / 2) := by
    have h52 : (0:ℚ) ≤ 5 / 2 := by norm_num
    exact mul_le_mul_of_nonneg_right h h52
  have hx : (x / (5 / 2) + 1 / 2) * (5 / 2) = x + 5 / 4 := by
    rw [add_mul, div_mul_cancel₀ x (by norm_num : (5 / 2 : ℚ) ≠ 0)]
    norm_num
  calc rstepQ x = (roundQ (x / (5 / 2)) : ℚ) * (5 / 2) := rfl
    _ ≤ (x / (5 / 2) + 1 / 2) * (5 / 2) := hmul
    _ = x + 5 / 4 := hx

theorem lt_rstepQ (x : ℚ) : x - 5 / 4 < rstepQ x := by
  have h := lt_roundQ (x / (5 / 2))
  have hmul : (x / (5 / 2) - 1 / 2) * (5 / 2) < (roundQ (x / (5 / 2)) : ℚ) * (5 / 2) := by
    have h52 : (0:ℚ) < 5 / 2 := by norm_num
    exact mul_lt_mul_of_pos_right h h52
  have hx : (x / (5 / 2) - 1 / 2) * (5 / 2) = x - 5 / 4 := by
    rw [sub_mul, div_mul_cancel₀ x (by norm_num : (5 / 2 : ℚ) ≠ 0)]
    norm_num
  calc x - 5 / 4 = (x / (5 / 2) - 1 / 2) * (5 / 2) := hx.symm
    _ < (roundQ (x / (5 / 2)) : ℚ) * (5 / 2) := hmul
    _ = rstepQ x := rfl

theorem rstepQ_mono {x y : ℚ} (h : x ≤ y) : rstepQ x ≤ rstepQ y := by
  have : roundQ (x / (5 / 2)) ≤ roundQ (y / (5 / 2)) := by
    refine roundQ_mono ?_
    linarith
  have h52 : (0:ℚ) ≤ 5 / 2 := by norm_num
  calc rstepQ x = (roundQ (x / (5 / 2)) : ℚ) * (5 / 2) := rfl
    _ ≤ (roundQ (y / (5 / 2)) : ℚ) * (5 / 2) := by
        exact mul_le_mul_of_nonneg_right (by exact_mod_cast this) h52
    _ = rstepQ y := rfl

theorem rstepQ_twenty : rstepQ 20 = 20 := by
  norm_num [rstepQ, roundQ]

theorem rstepQ_zero : rstepQ 0 = 0 := by
  norm_num [rstepQ, roundQ]

theorem rstepQ_abs_le (x : ℚ) : |rstepQ x - x| ≤ 5 / 4 := by
  rw [abs_le]
  constructor
  · have := lt_rstepQ x; linarith
  · have := rstepQ_le x; linarith

/-- The fixed-up weight is a step multiple at least the target when the
target strictly exceeds some step multiple `rstepQ w`. -/
theorem rstepQ_ge_of_rstepQ_lt {w q : ℚ} (h : rstepQ w < q) : rstepQ w ≤ rstepQ q := by
  have hk : (roundQ (w / (5 / 2)) : ℚ) * (5 / 2) < q := h
  have hkq : (roundQ (w / (5 / 2)) : ℚ) ≤ q / (5 / 2) + 1 / 2 := by
    nlinarith [hk]
  have : roundQ (w / (5 / 2)) ≤ roundQ (q / (5 / 2)) := by
    have : roundQ (w / (5 / 2)) ≤ ⌊q / (5 / 2) + 1 / 2⌋ := by
      rw [Int.le_floor]; exact_mod_cast hkq
    exact this
  have h52 : (0:ℚ) ≤ 5 / 2 := by norm_num
  exact mul_le_mul_of_nonneg_right (by exact_mod_cast this) h52

theorem round2Q_neg {x : ℚ} (h : x ≤ -1) : round2Q x < 0 := by
  have heps : epsJS < 1 / 4 := by norm_num [epsJS]
  have harg : (x + epsJS) * 100 + 1 / 2 ≤ -74 := by nlinarith
  have hfl : roundQ ((x + epsJS) * 100) ≤ -74 := by
    have : roundQ ((x + epsJS) * 100) ≤ ⌊(-74 : ℚ)⌋ := Int.floor_le_floor (by linarith)
    simpa using this
  have : (roundQ ((x + epsJS) * 100) : ℚ) ≤ -74 := by exact_mod_cast hfl
  have : (roundQ ((x + epsJS) * 100) : ℚ) / 100 ≤ -74 / 100 := by linarith
  calc round2Q x = (roundQ ((x + epsJS) * 100) : ℚ) / 100 := rfl
    _ ≤ -74 / 100 := this
    _ < 0 := by norm_num

@[simp] theorem roundToNearest2point5_num (a : ℚ) :
    roundToNearest2point5 (num a) = num (rstepQ a) := by
  simp [roundToNearest2point5, JSNum.div_num _ _ (by norm_num : (5/2 : ℚ) ≠ 0), rstepQ]

@[simp] theorem roundToNearest2point5_inf : roundToNearest2point5 inf = inf := by
  norm_num [roundToNearest2point5, JSNum.div, JSNum.round, JSNum.mul, JSNum.mulInfNum]

@[simp] theorem roundToNearest2point5_ninf : roundToNearest2point5 ninf = ninf := by
  norm_num [roundToNearest2point5, JSNum.div, JSNum.round, JSNum.mul, JSNum.mulInfNum]

@[simp] theorem roundToNearest2point5_nan : roundToNearest2point5 nan = nan := rfl

@[simp] theorem round2_num (a : ℚ) : round2 (num a) = num (round2Q a) := by
  simp [round2, JSNum.div_num _ _ (by norm_num : (100 : ℚ) ≠ 0), round2Q]

/-! ## Facts about the ladder-construction loop -/

@[simp] theorem iterAdd_zero (w inc : JSNum) : iterAdd w inc 0 = w := rfl

@[simp] theorem iterAdd_succ (w inc : JSNum) (m : ℕ) :
    iterAdd w inc (m + 1) = JSNum.add (iterAdd w inc m) inc := rfl

@[simp] theorem iterSub_zero (r : JSNum) : iterSub r 0 = r := rfl

@[simp] theorem iterSub_succ (r : JSNum) (m : ℕ) :
    iterSub r (m + 1) = JSNum.sub (iterSub r m) 1 := rfl

theorem iterAdd_shift (w inc : JSNum) (m : ℕ) :
    iterAdd (JSNum.add w inc) inc m = iterAdd w inc (m + 1) := by
  induction m with
  | zero => rfl
  | succ m ih => simp only [iterAdd_succ, ih]

theorem iterSub_shift (r : JSNum) (m : ℕ) :
    iterSub (JSNum.sub r 1) m = iterSub r (m + 1) := by
  induction m with
  | zero => rfl
  | succ m ih => simp only [iterSub_succ, ih]

@[simp] theorem iterAdd_num (w i : ℚ) (m : ℕ) :
    iterAdd (num w) (num i) m = num (w + m * i) := by
  induction m with
  | zero => simp
  | succ m ih => simp [ih]; ring

@[simp] theorem iterSub_num (r : ℚ) (m : ℕ) :
    iterSub (num r) m = num (r - m) := by
  induction m with
  | zero => simp
  | succ m ih => simp [ih]; ring

@[simp] theorem iterAdd_nan (inc : JSNum) (m : ℕ) : iterAdd nan inc m = nan := by
  induction m with
  | zero => rfl
  | succ m ih => simp [ih]

@[simp] theorem iterSub_nan (m : ℕ) : iterSub nan m = nan := by
  induction m with
  | zero => rfl
  | succ m ih => simp [ih, JSNum.sub, JSNum.neg]

@[simp] theorem iterSub_ninf (m : ℕ) : iterSub ninf m = ninf := by
  induction m with
  | zero => rfl
  | succ m ih => simp [ih]; rfl

@[simp] theorem iterSub_inf (m : ℕ) : iterSub inf m = inf := by
  induction m with
  | zero => rfl
  | succ m ih => simp [ih]; rfl

@[simp] theorem iterAdd_inf_num (i : ℚ) (m : ℕ) : iterAdd inf (num i) m = inf := by
  induction m with
  | zero => rfl
  | succ m ih => simp [ih]

@[simp] theorem iterAdd_ninf_num (i : ℚ) (m : ℕ) : iterAdd ninf (num i) m = ninf := by
  induction m with
  | zero => rfl
  | succ m ih => simp [ih]

theorem iterAdd_inf_inf (m : ℕ) : iterAdd inf inf m = inf := by
  induction m with
  | zero => rfl
  | succ m ih => simp [ih]; rfl

/-- Every row the ladder loop emits is the rounded running weight after
some number `m` of iterations, with the loop conditions holding at that
iteration. -/
theorem buildLadder_mem {fuel : ℕ} {reps w inc top : JSNum} {row : LadderRow}
    (h : row ∈ buildLadder fuel reps w inc top) :
    ∃ m : ℕ, row = ⟨roundToNearest2point5 (iterAdd w inc m), iterSub reps m, none⟩ ∧
      JSNum.le 1 (iterSub reps m) = true ∧
      JSNum.le (iterAdd w inc m) (JSNum.add top (num (1 / 1000000))) = true := by
  induction fuel generalizing reps w with
  | zero => simp [buildLadder] at h
  | succ fuel ih =>
    rw [buildLadder] at h
    by_cases hc : (JSNum.le 1 reps && JSNum.le w (JSNum.add top (num (1 / 1000000)))) = true
    · rw [if_pos hc] at h
      rcases List.mem_cons.mp h with h0 | htail
      · rw [Bool.and_eq_true] at hc
        exact ⟨0, by simpa using h0, by simpa using hc.1, by simpa using hc.2⟩
      · rcases ih htail with ⟨m, hrow, h1, h2⟩
        refine ⟨m + 1, ?_, ?_, ?_⟩
        · rwa [iterAdd_shift, iterSub_shift] at hrow
        · rwa [iterSub_shift] at h1
        · rwa [iterAdd_shift] at h2
    · rw [if_neg hc] at h
      simp at h

/-- When the ladder loop emits at least one row, the first row is the
rounded start weight at the start rep count. -/
theorem buildLadder_head {fuel : ℕ} {reps w inc top : JSNum}
    (h : buildLadder fuel reps w inc top ≠ []) :
    (buildLadder fuel reps w inc top).head? =
      some ⟨roundToNearest2point5 w, reps, none⟩ ∧
      JSNum.le 1 reps = true ∧
      JSNum.le w (JSNum.add top (num (1 / 1000000))) = true := by
  cases fuel with
  | zero => simp [buildLadder] at h
  | succ fuel =>
    rw [buildLadder] at h ⊢
    by_cases hc : (JSNum.le 1 reps && JSNum.le w (JSNum.add top (num (1 / 1000000)))) = true
    · rw [if_pos hc]
      rw [Bool.and_eq_true] at hc
      exact ⟨rfl, hc.1, hc.2⟩
    · rw [if_neg hc] at h
      simp at h

/-- The loop output is never longer than the (finite) start rep count
allows: reps drop below `1` after at most `⌈r⌉` iterations. -/
theorem buildLadder_length_le (fuel : ℕ) (r : ℚ) (w inc top : JSNum) :
    (buildLadder fuel (num r) w inc top).length ≤ ⌈r⌉.toNat := by
  induction fuel generalizing r w with
  | zero => simp [buildLadder]
  | succ fuel ih =>
    rw [buildLadder]
    by_cases hc : (JSNum.le 1 (num r) && JSNum.le w (JSNum.add top (num (1 / 1000000)))) = true
    · rw [if_pos hc]
      have h1 : (1:ℚ) ≤ r := by
        rw [Bool.and_eq_true] at hc
        simpa using hc.1
      have hceil : 1 ≤ ⌈r⌉ := by exact_mod_cast Int.le_ceil_iff.mpr (by push_cast; linarith)
      have hsub : (num r).sub 1 = num (r - 1) := by simp
      rw [List.length_cons, hsub]
      have := ih (r - 1) (JSNum.add w inc)
      have hc1 : ⌈r - 1⌉.toNat + 1 = ⌈r⌉.toNat := by
        rw [Int.ceil_sub_one]
        omega
      omega
    · rw [if_neg hc]; simp

/-- Raising the iteration bound beyond the (finite) start rep count does
not change the loop output: the 400-iteration guard never truncates a
ladder whose start rep count is at most the bound. -/
theorem buildLadder_stable (m : ℕ) (r : ℚ) (hr : ⌈r⌉ ≤ (m : ℤ)) :
    ∀ (k : ℕ) (w inc top : JSNum),
      buildLadder (m + k) (num r) w inc top = buildLadder m (num r) w inc top := by
  induction m generalizing r with
  | zero =>
    intro k w inc top
    have hr1 : ¬ ((1:ℚ) ≤ r) := by
      intro hcon
      have : (1:ℤ) ≤ ⌈r⌉ := by exact_mod_cast Int.le_ceil_iff.mpr (by push_cast; linarith)
      omega
    cases k with
    | zero => rfl
    | succ k =>
      have hfalse : JSNum.le 1 (num r) = false := by simpa using hr1
      simp only [Nat.zero_add]
      simp [buildLadder, hfalse]
      exact fun h => absurd h hr1
  | succ m ih =>
    intro k w inc top
    have hshift : m + 1 + k = (m + k) + 1 := by omega
    rw [hshift, buildLadder, buildLadder]
    by_cases hc : (JSNum.le 1 (num r) && JSNum.le w (JSNum.add top (num (1 / 1000000)))) = true
    · rw [if_pos hc, if_pos hc]
      have hsub : (num r).sub 1 = num (r - 1) := by simp
      rw [hsub]
      rw [ih (r - 1) (by rw [Int.ceil_sub_one]; omega) k]
    · rw [if_neg hc, if_neg hc]

/-! ## Facts about the post-loop fix-up and the assembled plans -/

theorem appendFinal_none {sets : List LadderRow} {top : JSNum}
    (h : sets.getLast? = none) :
    appendFinal sets top =
      sets ++ [⟨roundToNearest2point5 top, 1, none⟩] := by
  unfold appendFinal
  rw [h]

theorem appendFinal_some {sets : List LadderRow} {top : JSNum} {last : LadderRow}
    (h : sets.getLast? = some last) :
    appendFinal sets top =
      if (JSNum.gt (JSNum.abs (JSNum.sub last.weight top)) (num (5 / 2))
          || !(JSNum.seq last.reps 1)) = true then
        if JSNum.gt top last.weight = true then
          sets ++ [⟨roundToNearest2point5 top, 1, none⟩]
        else sets
      else sets := by
  unfold appendFinal
  rw [h]

theorem appendFinal_ne_nil (sets : List LadderRow) (top : JSNum) :
    appendFinal sets top ≠ [] := by
  cases hlast : sets.getLast? with
  | none => rw [appendFinal_none hlast]; simp
  | some last =>
    have hne : sets ≠ [] := by
      intro hnil; rw [hnil] at hlast; simp at hlast
    rw [appendFinal_some hlast]
    by_cases h1 : (JSNum.gt (JSNum.abs (JSNum.sub last.weight top)) (num (5 / 2))
        || !(JSNum.seq last.reps 1)) = true
    · rw [if_pos h1]
      by_cases h2 : JSNum.gt top last.weight = true
      · rw [if_pos h2]; simp
      · rw [if_neg h2]; exact hne
    · rw [if_neg h1]; exact hne

/-- The plan's row list is never empty once the degenerate-input guard
is passed: the loop emits a row or the fix-up appends one. -/
theorem ladderPlan_sets_ne_nil (dm inc cap bw : JSNum) (pu : Bool)
    (h1 : JSNum.toBool dm = true) (h2 : JSNum.toBool inc = true) :
    (ladderPlan dm inc cap pu bw).sets ≠ [] := by
  unfold ladderPlan
  rw [h1, h2]
  simp only [Bool.not_true, Bool.or_self, Bool.false_or, if_false]
  cases pu with
  | false =>
    simpa using appendFinal_ne_nil (buildLadder 400 (ladderStart dm inc cap false).1
      (ladderStart dm inc cap false).2 inc dm) dm
  | true =>
    simp only [if_true]
    intro hmap
    exact appendFinal_ne_nil _ dm (by simpa using hmap)

/-! ## Counterexamples to the claims that fail on the code -/

unseal Rat.add Rat.mul Rat.sub Rat.inv in
/-- C1 counterexample: for `dailyMax = 24.9`, `increment = 1` (finite
`dailyMax > 20`, positive finite increment, `isPullup = false`, default
`startRepCap`), the last rung of the loop rounds to 25 which is not
below `dailyMax`, so the synthetic final single is suppressed and the
returned plan ends in a two-rep row: the last row does not have
`reps = 1`. -/
theorem ladderPlan_final_rung_not_single :
    (ladderPlan (num (249 / 10)) (num 1) (num 12) false (num 80)).sets.getLast? =
      some ⟨num 25, num 2, none⟩ := by decide

unseal Rat.add Rat.mul Rat.sub Rat.inv in
/-- C2 counterexample: `+Infinity` is a non-finite `dailyMax`, but it is
truthy, so all three planners pass their falsy-input guard and return
non-empty row lists instead of the claimed empty plans. -/
theorem planners_keep_infinite_dailyMax :
    (rpPercentPlan inf).sets.length = 5 ∧
    (ladderPlan inf (num 10) (num 12) false (num 80)).sets.length = 12 ∧
    (rpFixedDropPlan inf (num 10) 4 [3, 5, 7, 9]).sets.length = 4 := by decide

unseal Rat.add Rat.mul Rat.sub Rat.inv in
/-- C3 counterexample: for `dailyMax = 10`, `increment = 2` (truthy
numeric inputs, `isPullup = false`), the loop emits nothing and the
fix-up appends a synthetic single at `roundToNearest2point5(10) = 10`,
a non-empty plan with a row of weight `10 < 20`. -/
theorem ladderPlan_barbell_below_bar_row :
    (ladderPlan (num 10) (num 2) (num 12) false (num 80)).sets =
      [⟨num 10, num 1, none⟩] := by decide

unseal Rat.add Rat.mul Rat.sub Rat.inv in
/-- C4 counterexample: for `dailyMax = -10`, `increment = 2.5`,
`isPullup = true`, the plan is the single synthetic row at weight
`-10 < 0`. -/
theorem ladderPlan_pullup_negative_row :
    (ladderPlan (num (-10)) (num (5 / 2)) (num 12) true (num 80)).sets =
      [⟨num (-10), num 1, some (num (-90))⟩] := by decide

unseal Rat.add Rat.mul Rat.sub Rat.inv in
/-- C5 counterexample: for `dailyMax = 79.9 < bodyweight = 80` with
positive finite `increment = 1000`, the single rung rounds up to 80, so
its `external` is `0` and no row shows a negative external load. -/
theorem ladderPlan_pullup_no_assist_row :
    (ladderPlan (num (799 / 10)) (num 1000) (num 12) true (num 80)).sets =
      [⟨num 80, num 1, some (num 0)⟩] := by decide

unseal Rat.add Rat.mul Rat.sub Rat.inv in
/-- C6 counterexample: for `dailyMax = 10` the five percent-plan rows
round to `[10, 7.5, 7.5, 7.5, 7.5]`, which is not strictly
decreasing. -/
theorem rpPercentPlan_weights_tie :
    ((rpPercentPlan (num 10)).sets.map fun r => r.weight) =
      [num 10, num (15 / 2), num (15 / 2), num (15 / 2), num (15 / 2)] := by decide

unseal Rat.add Rat.mul Rat.sub Rat.inv in
/-- C8 counterexample: `rpFixedDropPlan` never validates `drop`; with
`dailyMax = 100` and `drop = 0` it returns a full (non-empty) plan, not
the claimed empty plan. -/
theorem rpFixedDropPlan_ignores_zero_drop :
    (rpFixedDropPlan (num 100) (num 0) 4 [3, 5, 7, 9]).topSingle = some (num 95) ∧
    (rpFixedDropPlan (num 100) (num 0) 4 [3, 5, 7, 9]).sets.length = 4 := by decide

set_option maxRecDepth 10000 in
unseal Rat.add Rat.mul Rat.sub Rat.inv in
/-- C9 counterexample: with `dailyMax = 419`, `increment = 1` and
`startRepCap = 400` (which satisfies `startRepCap ≤ 400`), the start
point is 400 reps at the bar, the loop runs exactly 400 iterations, and
the guard counter therefore reaches 400. -/
theorem ladderPlan_guard_reaches_400 :
    ladderStart (num 419) (num 1) (num 400) false = (num 400, num 20) ∧
    (buildLadder 400 (num 400) (num 20) (num 1) (num 419)).length = 400 ∧
    (ladderPlan (num 419) (num 1) (num 400) false (num 80)).sets.length = 400 := by
  decide

/-! ## Degenerate-input behaviour (claims C2 and C8) -/

/-- C2 amended: among the non-finite values only `NaN` is falsy, so a
`NaN` `dailyMax` (or `NaN` `increment` for the ladder planner) makes
each planner return its well-formed empty plan; the planners are total
functions, so no call throws.  (`±Infinity` is truthy and is *not*
rejected — see the counterexample.) -/
theorem planners_empty_on_nan :
    (∀ inc cap bw pu, ladderPlan nan inc cap pu bw = ⟨[], 0, none⟩) ∧
    (∀ dm cap bw pu, ladderPlan dm nan cap pu bw = ⟨[], 0, none⟩) ∧
    rpPercentPlan nan = ⟨[], 0, 0⟩ ∧
    (∀ drop s scheme, rpFixedDropPlan nan drop s scheme = ⟨none, [], 0⟩) := by
  refine ⟨fun inc cap bw pu => ?_, fun dm cap bw pu => ?_, ?_, fun drop s scheme => ?_⟩ <;>
    simp [ladderPlan, rpPercentPlan, rpFixedDropPlan]

/-- C8 amended: `rpFixedDropPlan` detects invalid input only through
`dailyMax`: every call with a falsy (zero or `NaN`) `dailyMax` returns
the well-formed empty plan `{topSingle: null, sets: [], tonnage: 0}`,
and no call ever throws.  The `drop` parameter is never inspected by
the guard: for any truthy `dailyMax` the planner proceeds and returns a
non-null `topSingle = roundToNearest2point5(0.95 · dailyMax)` whatever
`drop` is, so the claimed empty plan is never produced there (with
`drop = 0` a full row list even appears — see the counterexample). -/
theorem rpFixedDropPlan_guard_only_dailyMax :
    (∀ (dm drop : JSNum) (s : ℕ) (scheme : List ℚ), JSNum.toBool dm = false →
      rpFixedDropPlan dm drop s scheme = ⟨none, [], 0⟩) ∧
    (∀ (dm drop : JSNum) (s : ℕ) (scheme : List ℚ), JSNum.toBool dm = true →
      (rpFixedDropPlan dm drop s scheme).topSingle =
        some (roundToNearest2point5 (JSNum.mul (num (19 / 20)) dm))) := by
  constructor
  · intro dm drop s scheme h
    simp [rpFixedDropPlan, h]
  · intro dm drop s scheme h
    simp [rpFixedDropPlan, h]

/-- Witness for `rpFixedDropPlan_guard_only_dailyMax`: at `dailyMax = 0`
the guard fires; at `dailyMax = 100` with `drop = +Infinity` the plan
still carries a non-null top single. -/
theorem rpFixedDropPlan_guard_only_dailyMax_at_0_and_100 :
    rpFixedDropPlan (num 0) (num 10) 4 [3, 5, 7, 9] = ⟨none, [], 0⟩ ∧
    (rpFixedDropPlan (num 100) inf 4 [3, 5, 7, 9]).topSingle =
      some (roundToNearest2point5 (JSNum.mul (num (19 / 20)) (num 100))) :=
  ⟨rpFixedDropPlan_guard_only_dailyMax.1 (num 0) (num 10) 4 [3, 5, 7, 9] (by decide),
   rpFixedDropPlan_guard_only_dailyMax.2 (num 100) inf 4 [3, 5, 7, 9] (by decide)⟩

/-! ## The percent plan (claim C6) -/

/-- C6 amended: for every positive finite `dailyMax` the percent plan
returns exactly 5 rows and their weights are nonincreasing from the
first row to the last (adjacent rows can tie once `0.05 × dailyMax`
falls below the 2.5 rounding step, so the order is not strict — see
the counterexample). -/
theorem rpPercentPlan_five_rows_antitone (q : ℚ) (hq : 0 < q) :
    (rpPercentPlan (num q)).sets.length = 5 ∧
    List.Chain' (fun a b => JSNum.le b.weight a.weight = true)
      (rpPercentPlan (num q)).sets := by
  have hq0 : JSNum.toBool (num q) = true := by simp [hq.ne']
  have h1 : rstepQ (17 / 20 * q) ≤ rstepQ (9 / 10 * q) := rstepQ_mono (by linarith)
  have h2 : rstepQ (4 / 5 * q) ≤ rstepQ (17 / 20 * q) := rstepQ_mono (by linarith)
  have h3 : rstepQ (3 / 4 * q) ≤ rstepQ (4 / 5 * q) := rstepQ_mono (by linarith)
  have h4 : rstepQ (7 / 10 * q) ≤ rstepQ (3 / 4 * q) := rstepQ_mono (by linarith)
  refine ⟨?_, ?_⟩ <;>
    simp [rpPercentPlan, hq0, pctScheme, List.chain'_cons, h1, h2, h3, h4]

/-- Witness for `rpPercentPlan_five_rows_antitone` at
`dailyMax = 100`. -/
theorem rpPercentPlan_five_rows_antitone_at_100 :
    (rpPercentPlan (num 100)).sets.length = 5 ∧
    List.Chain' (fun a b => JSNum.le b.weight a.weight = true)
      (rpPercentPlan (num 100)).sets :=
  rpPercentPlan_five_rows_antitone 100 (by norm_num)

/-! ## The fixed-drop plan's back-off loop (claim C7) -/

theorem dropRows_length_le (drop : JSNum) (scheme : List ℚ) :
    ∀ (n i : ℕ) (w : JSNum), (dropRows drop scheme n i w).length ≤ n := by
  intro n
  induction n with
  | zero => intro i w; simp [dropRows]
  | succ n ih =>
    intro i w
    rw [dropRows]
    by_cases hc : JSNum.le (JSNum.sub w drop) 0 = true
    · rw [if_pos hc]; simp
    · rw [if_neg hc]
      simpa using Nat.succ_le_succ (ih (i + 1) (JSNum.sub w drop))

/-- The back-off loop runs its full `n` iterations exactly when the
running weight is still positive after the `n`-th drop (equivalently,
for `n = 0`). -/
theorem dropRows_length_eq_iff {d : ℚ} (hd : 0 < d) (scheme : List ℚ) :
    ∀ (n i : ℕ) (w : ℚ),
      (dropRows (num d) scheme n i (num w)).length = n ↔ (n = 0 ∨ 0 < w - n * d) := by
  intro n
  induction n with
  | zero => intro i w; simp [dropRows]
  | succ n ih =>
    intro i w
    rw [dropRows]
    have hsub : JSNum.sub (num w) (num d) = num (w - d) := by simp
    rw [hsub]
    by_cases hc : JSNum.le (num (w - d)) 0 = true
    · rw [if_pos hc]
      have hwd : w - d ≤ 0 := by simpa using hc
      have hnd : (0:ℚ) ≤ n * d := by positivity
      constructor
      · intro h; simp at h
      · rintro (h | h)
        · exact absurd h (Nat.succ_ne_zero n)
        · exfalso
          have : w - (n + 1 : ℕ) * d = (w - d) - n * d := by push_cast; ring
          rw [this] at h
          linarith
    · rw [if_neg hc]
      have hwd : 0 < w - d := by
        by_contra hcon
        exact hc (by simpa using le_of_not_lt hcon)
      have hrw : w - (n + 1 : ℕ) * d = (w - d) - n * d := by push_cast; ring
      simp only [List.length_cons, Nat.succ_eq_add_one, Nat.add_right_cancel_iff]
      rw [ih (i + 1) (w - d)]
      constructor
      · rintro (h | h)
        · right; rw [hrw, h]; simpa using hwd
        · right; rw [hrw]; linarith
      · intro h
        rcases Nat.eq_zero_or_pos n with hn | hn
        · exact Or.inl hn
        · right
          rcases h with h | h
          · simp at h
          · rw [hrw] at h; linarith

/-- C7: with positive finite `dailyMax`, positive finite `drop` and an
integer `sets` count, the back-off list never exceeds `sets` rows, and
it is strictly shorter exactly when some `i`-th drop (`1 ≤ i ≤ sets`)
takes the running weight `topSingle - i·drop` to zero or below (after
which the loop breaks and emits no further rows). -/
theorem rpFixedDropPlan_row_count (q d : ℚ) (n : ℕ) (scheme : List ℚ)
    (hq : 0 < q) (hd : 0 < d) :
    (rpFixedDropPlan (num q) (num d) n scheme).sets.length ≤ n ∧
    ((rpFixedDropPlan (num q) (num d) n scheme).sets.length < n ↔
      ∃ i : ℕ, 1 ≤ i ∧ i ≤ n ∧ rstepQ (19 / 20 * q) - i * d ≤ 0) := by
  have hq0 : JSNum.toBool (num q) = true := by simp [hq.ne']
  have hsets : (rpFixedDropPlan (num q) (num d) n scheme).sets =
      dropRows (num d) scheme n 0 (num (rstepQ (19 / 20 * q))) := by
    simp [rpFixedDropPlan, hq0]
  rw [hsets]
  refine ⟨dropRows_length_le _ _ _ _ _, ?_⟩
  have hle := dropRows_length_le (num d) scheme n 0 (num (rstepQ (19 / 20 * q)))
  have hiff := dropRows_length_eq_iff hd scheme n 0 (rstepQ (19 / 20 * q))
  constructor
  · intro hlt
    have hne : (dropRows (num d) scheme n 0 (num (rstepQ (19 / 20 * q)))).length ≠ n :=
      Nat.ne_of_lt hlt
    have hnot := (not_congr hiff).mp hne
    push_neg at hnot
    refine ⟨n, ?_, le_refl n, by linarith [hnot.2]⟩
    rcases Nat.eq_zero_or_pos n with h0 | h1
    · exact absurd h0 hnot.1
    · exact h1
  · rintro ⟨i, hi1, hin, hi0⟩
    have hn0 : n ≠ 0 := by omega
    have hmono : rstepQ (19 / 20 * q) - n * d ≤ rstepQ (19 / 20 * q) - i * d := by
      have : (i : ℚ) * d ≤ (n : ℚ) * d := by
        have : (i : ℚ) ≤ n := by exact_mod_cast hin
        nlinarith
      linarith
    have hne : (dropRows (num d) scheme n 0 (num (rstepQ (19 / 20 * q)))).length ≠ n := by
      rw [Ne, hiff]
      push_neg
      exact ⟨hn0, by linarith⟩
    omega

/-- Witness for `rpFixedDropPlan_row_count` at `dailyMax = 100`,
`drop = 30`, `sets = 4` (the loop stops after 3 rows). -/
theorem rpFixedDropPlan_row_count_at_100 :
    (rpFixedDropPlan (num 100) (num 30) 4 [3, 5, 7, 9]).sets.length ≤ 4 :=
  (rpFixedDropPlan_row_count 100 30 4 [3, 5, 7, 9] (by norm_num) (by norm_num)).1

/-! ## The barbell ladder's final row (claim C1) -/

theorem JSNum.seq_eq {a b : JSNum} (h : JSNum.seq a b = true) : a = b := by
  cases a <;> cases b <;> simp_all [JSNum.seq]

@[simp] theorem JSNum.sub_ninf_num (a : ℚ) : JSNum.sub ninf (num a) = ninf := rfl

@[simp] theorem JSNum.abs_ninf : JSNum.abs ninf = inf := rfl

@[simp] theorem JSNum.abs_inf : JSNum.abs inf = inf := rfl

@[simp] theorem JSNum.gt_def (a b : JSNum) : JSNum.gt a b = JSNum.lt b a := rfl

/-- C1 amended: for `isPullup = false`, finite `dailyMax > 20` and
positive finite `increment` (any `startRepCap` and `bodyweight`), the
returned list is non-empty and its last row has
`|weight − dailyMax| ≤ 2.5`; its rep count is `1` unless the last
rung's rounded weight already reached `dailyMax`, in which case the
synthetic final single is suppressed (the weight then satisfies
`weight ≥ dailyMax`, but the rep count can exceed 1 — see the
counterexample). -/
theorem ladderPlan_barbell_last_row (q i : ℚ) (cap bw : JSNum)
    (hq : 20 < q) (hi : 0 < i) :
    ∃ last, (ladderPlan (num q) (num i) cap false bw).sets.getLast? = some last ∧
      JSNum.le (JSNum.abs (JSNum.sub last.weight (num q))) (num (5 / 2)) = true ∧
      (last.reps = num 1 ∨ JSNum.le (num q) last.weight = true) := by
  have hq0 : JSNum.toBool (num q) = true := by simp; linarith
  have hi0 : JSNum.toBool (num i) = true := by simp [hi.ne']
  have hplan : (ladderPlan (num q) (num i) cap false bw).sets =
      appendFinal (buildLadder 400 (ladderStart (num q) (num i) cap false).1
        (ladderStart (num q) (num i) cap false).2 (num i) (num q)) (num q) := by
    simp [ladderPlan, hq0, hi0]
  rw [hplan]
  set L := buildLadder 400 (ladderStart (num q) (num i) cap false).1
    (ladderStart (num q) (num i) cap false).2 (num i) (num q) with hL
  have hfinal_abs : JSNum.le (JSNum.abs (JSNum.sub (num (rstepQ q)) (num q)))
      (num (5 / 2)) = true := by
    have := rstepQ_abs_le q
    simp only [JSNum.sub_num, JSNum.abs_num, JSNum.le_num, decide_eq_true_eq]
    linarith
  cases hlast : L.getLast? with
  | none =>
    rw [appendFinal_none hlast]
    have hnil : L = [] := by simpa using hlast
    rw [hnil]
    exact ⟨⟨num (rstepQ q), 1, none⟩, by simp, by simpa using hfinal_abs, Or.inl rfl⟩
  | some l =>
    have hmem : l ∈ L := List.mem_of_mem_getLast? (by simp [hlast])
    rcases buildLadder_mem hmem with ⟨m, hrow, hreps, hw⟩
    have hwle : JSNum.le (iterAdd (ladderStart (num q) (num i) cap false).2 (num i) m)
        (num (q + 1 / 1000000)) = true := by
      simpa using hw
    rw [appendFinal_some hlast]
    rcases JSNum.le_num_cases hwle with ⟨w', hw', hwb⟩ | hninf
    · -- last rung's raw weight is finite
      rw [hw'] at hrow
      by_cases htest : (JSNum.gt (JSNum.abs (JSNum.sub l.weight (num q))) (num (5 / 2))
          || !(JSNum.seq l.reps 1)) = true
      · rw [if_pos htest]
        by_cases hgate : JSNum.gt (num q) l.weight = true
        · rw [if_pos hgate]
          refine ⟨⟨roundToNearest2point5 (num q), 1, none⟩, List.getLast?_concat L,
            ?_, Or.inl rfl⟩
          simpa using hfinal_abs
        · rw [if_neg hgate]
          refine ⟨l, hlast, ?_, Or.inr ?_⟩
          · have hwq : l.weight = num (rstepQ w') := by rw [hrow]; simp
            have hge : q ≤ rstepQ w' := by
              rw [hwq] at hgate
              simpa using hgate
            have hup : rstepQ w' ≤ w' + 5 / 4 := rstepQ_le w'
            rw [hwq]
            simp only [JSNum.sub_num, JSNum.abs_num, JSNum.le_num, decide_eq_true_eq]
            rw [abs_le]
            constructor <;> linarith
          · have hwq : l.weight = num (rstepQ w') := by rw [hrow]; simp
            rw [hwq] at hgate ⊢
            simp only [JSNum.gt_def, JSNum.lt_num, decide_eq_true_eq] at hgate
            simp only [JSNum.le_num, decide_eq_true_eq]
            linarith [not_lt.mp hgate]
      · rw [if_neg htest]
        have hand := (Bool.or_eq_false_iff.mp (Bool.not_eq_true _ |>.mp htest))
        refine ⟨l, hlast, ?_, Or.inl ?_⟩
        · have hwq : l.weight = num (rstepQ w') := by rw [hrow]; simp
          have habs := hand.1
          rw [hwq] at habs ⊢
          simp only [JSNum.gt_def, JSNum.sub_num, JSNum.abs_num, JSNum.lt_num,
            decide_eq_false_iff_not, not_lt] at habs
          simp only [JSNum.sub_num, JSNum.abs_num, JSNum.le_num, decide_eq_true_eq]
          exact habs
        · have hseq := hand.2
          have : JSNum.seq l.reps 1 = true := by
            cases h' : JSNum.seq l.reps 1
            · rw [h'] at hseq; simp at hseq
            · rfl
          exact JSNum.seq_eq this
    · -- last rung's raw weight is -Infinity: the fix-up always fires
      have hwninf : l.weight = ninf := by rw [hrow, hninf]; simp
      have htest : (JSNum.gt (JSNum.abs (JSNum.sub l.weight (num q))) (num (5 / 2))
          || !(JSNum.seq l.reps 1)) = true := by
        rw [hwninf]
        simp
      rw [if_pos htest]
      have hgate : JSNum.gt (num q) l.weight = true := by rw [hwninf]; rfl
      rw [if_pos hgate]
      refine ⟨⟨roundToNearest2point5 (num q), 1, none⟩, List.getLast?_concat L,
        ?_, Or.inl rfl⟩
      simpa using hfinal_abs

/-- Witness for `ladderPlan_barbell_last_row` at `dailyMax = 160`,
`increment = 10`: the plan ends `160 × 1`. -/
theorem ladderPlan_barbell_last_row_at_160 :
    ∃ last, (ladderPlan (num 160) (num 10) (num 12) false (num 80)).sets.getLast? =
        some last ∧
      JSNum.le (JSNum.abs (JSNum.sub last.weight (num 160))) (num (5 / 2)) = true ∧
      (last.reps = num 1 ∨ JSNum.le (num 160) last.weight = true) :=
  ladderPlan_barbell_last_row 160 10 (num 12) (num 80) (by norm_num) (by norm_num)

/-! ## The pull-up ladder's assistance annotation (claim C5) -/

@[simp] theorem round2_ninf : round2 ninf = ninf := by
  norm_num [round2, JSNum.add, JSNum.mul, JSNum.mulInfNum, JSNum.round, JSNum.div]

theorem mem_appendFinal_of_mem {r : LadderRow} {sets : List LadderRow} {top : JSNum}
    (h : r ∈ sets) : r ∈ appendFinal sets top := by
  cases hlast : sets.getLast? with
  | none => rw [appendFinal_none hlast]; exact List.mem_append_left _ h
  | some last =>
    rw [appendFinal_some hlast]
    by_cases h1 : (JSNum.gt (JSNum.abs (JSNum.sub last.weight top)) (num (5 / 2))
        || !(JSNum.seq last.reps 1)) = true
    · rw [if_pos h1]
      by_cases h2 : JSNum.gt top last.weight = true
      · rw [if_pos h2]; exact List.mem_append_left _ h
      · rw [if_neg h2]; exact h
    · rw [if_neg h1]; exact h

/-- Some row of the fixed-up ladder is either the synthetic final row
or the loop's first rung (whose raw weight passed the loop's weight
test). -/
theorem appendFinal_head_cases (reps w inc top : JSNum) :
    ∃ r, r ∈ appendFinal (buildLadder 400 reps w inc top) top ∧
      (r.weight = roundToNearest2point5 top ∨
        (r.weight = roundToNearest2point5 w ∧
          JSNum.le w (JSNum.add top (num (1 / 1000000))) = true)) := by
  by_cases hne : buildLadder 400 reps w inc top = []
  · refine ⟨⟨roundToNearest2point5 top, 1, none⟩, ?_, Or.inl rfl⟩
    have hlast : (buildLadder 400 reps w inc top).getLast? = none := by rw [hne]; rfl
    rw [appendFinal_none hlast, hne]
    simp
  · obtain ⟨hhead, hreps, hcond⟩ := buildLadder_head hne
    obtain ⟨a, t, hat⟩ := List.exists_cons_of_ne_nil hne
    have ha : a = ⟨roundToNearest2point5 w, reps, none⟩ := by
      rw [hat] at hhead; simpa using hhead
    exact ⟨a, mem_appendFinal_of_mem (by rw [hat]; exact List.mem_cons_self a t),
      Or.inr ⟨by rw [ha], hcond⟩⟩

/-- C5 amended: for `isPullup = true`, positive finite `increment` and
positive finite `dailyMax` at least one rounding step below the
bodyweight (`dailyMax ≤ bodyweight − 2.5`), some returned row shows
assistance: its `external` annotation is negative.  (When `dailyMax` is
within a rounding step of `bodyweight` a single rung can round up to
exactly `bodyweight`, making every `external` zero — see the
counterexample.) -/
theorem ladderPlan_pullup_assist_shown (q i b : ℚ) (cap : JSNum)
    (hq : 0 < q) (hi : 0 < i) (hb : q ≤ b - 5 / 2) :
    ((ladderPlan (num q) (num i) cap true (num b)).sets.any fun r =>
      match r.external with
      | some e => JSNum.lt e 0
      | none => false) = true := by
  have hq0 : JSNum.toBool (num q) = true := by simp [hq.ne']
  have hi0 : JSNum.toBool (num i) = true := by simp [hi.ne']
  have hplan : (ladderPlan (num q) (num i) cap true (num b)).sets =
      (appendFinal (buildLadder 400 (ladderStart (num q) (num i) cap true).1
        (ladderStart (num q) (num i) cap true).2 (num i) (num q)) (num q)).map
        (fun r => { r with external := some (round2 (JSNum.sub r.weight (num b))) }) := by
    simp [ladderPlan, hq0, hi0]
  rw [hplan, List.any_map, List.any_eq_true]
  -- a finite row weight at most a rounding step above dailyMax has a
  -- negative external annotation
  have hkey : ∀ (x : ℚ), x ≤ q + 5 / 4 + 1 / 1000000 →
      JSNum.lt (round2 (JSNum.sub (num x) (num b))) 0 = true := by
    intro x hx
    have harg : x - b ≤ -1 := by linarith
    have := round2Q_neg harg
    simp only [JSNum.sub_num, round2_num, JSNum.zero_def, JSNum.lt_num, decide_eq_true_eq]
    exact this
  obtain ⟨r, hmem, hcase⟩ := appendFinal_head_cases
    (ladderStart (num q) (num i) cap true).1 (ladderStart (num q) (num i) cap true).2
    (num i) (num q)
  refine ⟨r, hmem, ?_⟩
  rcases hcase with hfin | ⟨hwt, hcond⟩
  · have := hkey (rstepQ q) (by have := rstepQ_le q; linarith)
    simp only [Function.comp_apply, hfin, roundToNearest2point5_num]
    simpa using this
  · have hwle : JSNum.le (ladderStart (num q) (num i) cap true).2
        (num (q + 1 / 1000000)) = true := by simpa using hcond
    rcases JSNum.le_num_cases hwle with ⟨w0, hw0, hwb⟩ | hninf
    · have := hkey (rstepQ w0) (by have := rstepQ_le w0; linarith)
      simp only [Function.comp_apply, hwt, hw0, roundToNearest2point5_num]
      simpa using this
    · simp only [Function.comp_apply, hwt, hninf, roundToNearest2point5_ninf]
      simp [JSNum.sub, JSNum.add, JSNum.neg]

/-- Witness for `ladderPlan_pullup_assist_shown` at the spec's scenario
`dailyMax = 60`, `increment = 2.5`, `bodyweight = 80`,
`startRepCap = 8`. -/
theorem ladderPlan_pullup_assist_shown_at_60 :
    ((ladderPlan (num 60) (num (5 / 2)) (num 8) true (num 80)).sets.any fun r =>
      match r.external with
      | some e => JSNum.lt e 0
      | none => false) = true :=
  ladderPlan_pullup_assist_shown 60 (5 / 2) 80 (num 8) (by norm_num) (by norm_num)
    (by norm_num)

/-! ## The 400-iteration safety guard (claim C9) -/

/-- With finite inputs and a positive finite increment, the computed
start rep count is a finite number bounded by `max startRepCap 1`. -/
theorem ladderStart_reps_num (q i c : ℚ) (hi : 0 < i) (pu : Bool) :
    ∃ r : ℚ, (ladderStart (num q) (num i) (num c) pu).1 = num r ∧ r ≤ Max.max c 1 := by
  cases pu with
  | true =>
    refine ⟨Max.max 1 (Min.min c ⌊1 + q / i⌋), ?_, ?_⟩
    · simp [ladderStart, JSNum.div_num _ _ hi.ne']
    · rw [max_le_iff]
      constructor
      · exact le_max_right c 1
      · exact le_trans (min_le_left _ _) (le_max_left c 1)
  | false =>
    simp only [ladderStart, Bool.false_eq_true, if_false]
    rw [JSNum.sub_num, JSNum.div_num _ _ hi.ne']
    simp only [JSNum.one_def, JSNum.add_num, JSNum.round_num]
    by_cases hbr : (JSNum.le (num (roundQ (1 + (q - BAR) / i))) (num c)
        && JSNum.le (num 1) (num (roundQ (1 + (q - BAR) / i)))) = true
    · rw [if_pos hbr]
      rw [Bool.and_eq_true] at hbr
      refine ⟨roundQ (1 + (q - BAR) / i), rfl, ?_⟩
      have : (roundQ (1 + (q - BAR) / i) : ℚ) ≤ c := by
        have := hbr.1; simpa using this
      exact le_trans this (le_max_left c 1)
    · rw [if_neg hbr]
      simp only [JSNum.one_def, JSNum.sub_num, JSNum.mul_num, JSNum.lt_num]
      by_cases hcl : (q - i * (c - 1)) < BAR
      · rw [if_pos (by simpa using hcl)]
        refine ⟨Max.max 1 (Min.min c (1 + ⌊(q - BAR) / i⌋)), ?_, ?_⟩
        · simp [JSNum.div_num _ _ hi.ne']
        · rw [max_le_iff]
          constructor
          · exact le_max_right c 1
          · exact le_trans (min_le_left _ _) (le_max_left c 1)
      · rw [if_neg (by simpa using hcl)]
        exact ⟨c, rfl, le_max_left c 1⟩

/-- C9 amended: for positive finite `increment`, finite non-zero
`dailyMax` and finite `startRepCap ≤ 400`, the 400-iteration guard
never truncates the ladder loop: the start rep count is a finite
number `r ≤ 400`, raising the iteration bound does not change the loop
output, and the loop emits at most `⌈r⌉` rows.  (The guard counter can
still reach exactly 400 in the boundary case `startRepCap = 400` with
the rep count simultaneously exhausted — see the counterexample.) -/
theorem ladderPlan_guard_never_truncates (q i c : ℚ) (pu : Bool)
    (hi : 0 < i) (hc : c ≤ 400) :
    ∃ r : ℚ, (ladderStart (num q) (num i) (num c) pu).1 = num r ∧ r ≤ 400 ∧
      (∀ k : ℕ, buildLadder (400 + k) (num r)
          (ladderStart (num q) (num i) (num c) pu).2 (num i) (num q) =
        buildLadder 400 (num r) (ladderStart (num q) (num i) (num c) pu).2
          (num i) (num q)) ∧
      (buildLadder 400 (num r) (ladderStart (num q) (num i) (num c) pu).2
          (num i) (num q)).length ≤ ⌈r⌉.toNat := by
  obtain ⟨r, hr, hrb⟩ := ladderStart_reps_num q i c hi pu
  have hr400 : r ≤ 400 := le_trans hrb (max_le hc (by norm_num))
  have hceil : ⌈r⌉ ≤ (400 : ℤ) := Int.ceil_le.mpr (by exact_mod_cast hr400)
  exact ⟨r, hr, hr400, fun k => buildLadder_stable 400 r hceil k _ _ _,
    buildLadder_length_le 400 r _ _ _⟩

/-- Witness for `ladderPlan_guard_never_truncates` at `dailyMax = 160`,
`increment = 10`, `startRepCap = 12`. -/
theorem ladderPlan_guard_never_truncates_at_160 :
    ∃ r : ℚ, (ladderStart (num 160) (num 10) (num 12) false).1 = num r ∧ r ≤ 400 ∧
      (∀ k : ℕ, buildLadder (400 + k) (num r)
          (ladderStart (num 160) (num 10) (num 12) false).2 (num 10) (num 160) =
        buildLadder 400 (num r) (ladderStart (num 160) (num 10) (num 12) false).2
          (num 10) (num 160)) ∧
      (buildLadder 400 (num r) (ladderStart (num 160) (num 10) (num 12) false).2
          (num 10) (num 160)).length ≤ ⌈r⌉.toNat :=
  ladderPlan_guard_never_truncates 160 10 12 false (by norm_num) (by norm_num)

/-! ## Ordering of the ladder rows (claim C10) -/

/-- With a positive finite increment, consecutive loop rungs have
nondecreasing (rounded) weights and reps that drop by exactly one. -/
theorem buildLadder_chain (i : ℚ) (hi : 0 < i) :
    ∀ (fuel : ℕ) (reps w top : JSNum),
      List.Chain' (fun a b => JSNum.le a.weight b.weight = true ∧
          JSNum.le b.reps a.reps = true ∧ b.reps = JSNum.sub a.reps 1)
        (buildLadder fuel reps w (num i) top) := by
  intro fuel
  induction fuel with
  | zero => intro reps w top; simp [buildLadder]
  | succ fuel ih =>
    intro reps w top
    rw [buildLadder]
    by_cases hc : (JSNum.le 1 reps && JSNum.le w (JSNum.add top (num (1 / 1000000)))) = true
    · rw [if_pos hc]
      rw [List.chain'_cons']
      refine ⟨?_, ih _ _ _⟩
      intro b hb
      by_cases hnil :
          buildLadder fuel (JSNum.sub reps 1) (JSNum.add w (num i)) (num i) top = []
      · rw [hnil] at hb; simp at hb
      · obtain ⟨hhead, _, _⟩ := buildLadder_head hnil
        rw [hhead] at hb
        have hb' : (⟨roundToNearest2point5 (JSNum.add w (num i)),
            JSNum.sub reps 1, none⟩ : LadderRow) = b := by simpa using hb
        rw [Bool.and_eq_true] at hc
        subst hb'
        refine ⟨?_, ?_, rfl⟩
        · -- weights are nondecreasing along the loop
          dsimp only
          have hwnan : w ≠ nan := by
            intro hw; rw [hw] at hc; simp at hc
          cases w with
          | num a =>
            simp only [JSNum.add_num, roundToNearest2point5_num, JSNum.le_num,
              decide_eq_true_eq]
            exact rstepQ_mono (by linarith)
          | nan => exact absurd rfl hwnan
          | inf => simp
          | ninf => simp
        · -- reps never increase along the loop
          dsimp only
          have h1 := hc.1
          rcases JSNum.num_le_cases (by simpa using h1) with ⟨r, hr, hr1⟩ | hrinf
          · simp only [hr, JSNum.one_def, JSNum.sub_num, JSNum.le_num,
              decide_eq_true_eq]
            linarith
          · rw [hrinf]
            simp [JSNum.sub, JSNum.neg, JSNum.add]
    · rw [if_neg hc]
      simp

/-- JS `<` with a NaN right operand is always false. -/
@[simp] theorem JSNum.lt_nan_right (x : JSNum) : JSNum.lt x nan = false := by
  cases x <;> rfl

/-- JS `<` with a `-Infinity` right operand is always false. -/
@[simp] theorem JSNum.lt_ninf_right (x : JSNum) : JSNum.lt x ninf = false := by
  cases x <;> rfl

/-- The fixed-up ladder (loop rows plus the possible synthetic final
single) has nondecreasing weights and nonincreasing reps. -/
theorem appendFinal_chain (i : ℚ) (hi : 0 < i) (s1 s2 dm : JSNum) :
    List.Chain' (fun a b => JSNum.le a.weight b.weight = true ∧
        JSNum.le b.reps a.reps = true)
      (appendFinal (buildLadder 400 s1 s2 (num i) dm) dm) := by
  set L := buildLadder 400 s1 s2 (num i) dm with hLdef
  have hchainL : List.Chain' (fun a b => JSNum.le a.weight b.weight = true ∧
      JSNum.le b.reps a.reps = true) L :=
    List.Chain'.imp (fun a b h => ⟨h.1, h.2.1⟩) (buildLadder_chain i hi 400 s1 s2 dm)
  cases hlast : L.getLast? with
  | none =>
    rw [appendFinal_none hlast]
    have hnil : L = [] := by simpa using hlast
    rw [hnil]
    simp
  | some l =>
    rw [appendFinal_some hlast]
    by_cases h1 : (JSNum.gt (JSNum.abs (JSNum.sub l.weight dm)) (num (5 / 2))
        || !(JSNum.seq l.reps 1)) = true
    · rw [if_pos h1]
      by_cases h2 : JSNum.gt dm l.weight = true
      · rw [if_pos h2]
        refine List.Chain'.append hchainL (List.chain'_singleton _) ?_
        intro x hx y hy
        have hxl : l = x := by rw [hlast] at hx; simpa using hx
        have hyf : (⟨roundToNearest2point5 dm, 1, none⟩ : LadderRow) = y := by
          simpa using hy
        have hmem : l ∈ L := List.mem_of_mem_getLast? (by simp [hlast])
        rcases buildLadder_mem hmem with ⟨m, hrow, hreps, hw⟩
        rw [← hxl, ← hyf]
        simp only [JSNum.gt_def] at h2
        constructor
        · -- the appended single's weight is at least the last rung's
          dsimp only
          cases hdm : dm with
          | nan => rw [hdm] at h2; simp at h2
          | ninf => rw [hdm] at h2; simp at h2
          | inf =>
            simp only [roundToNearest2point5_inf]
            rw [hdm] at h2
            cases hxw : l.weight with
            | num a => simp
            | nan => rw [hxw] at h2; simp at h2
            | inf => simp
            | ninf => simp
          | num q =>
            rw [hdm] at h2
            cases hxw : l.weight with
            | nan => rw [hxw] at h2; simp at h2
            | inf => rw [hxw] at h2; simp at h2
            | ninf => simp
            | num lv =>
              rw [hxw] at h2
              have hlv : lv < q := by simpa using h2
              -- the last rung's weight is a rounded value
              have hlvr : ∃ w', lv = rstepQ w' := by
                have hxw' : l.weight =
                    roundToNearest2point5 (iterAdd s2 (num i) m) := by rw [hrow]
                rw [hxw] at hxw'
                cases hv : iterAdd s2 (num i) m with
                | num w' =>
                  rw [hv, roundToNearest2point5_num] at hxw'
                  exact ⟨w', by injection hxw'⟩
                | nan => rw [hv] at hxw'; simp at hxw'
                | inf => rw [hv] at hxw'; simp at hxw'
                | ninf => rw [hv] at hxw'; simp at hxw'
              obtain ⟨w', hw'⟩ := hlvr
              simp only [roundToNearest2point5_num, JSNum.le_num, decide_eq_true_eq]
              rw [hw']
              exact rstepQ_ge_of_rstepQ_lt (by rw [← hw']; exact hlv)
        · -- the appended single's rep count is at most the last rung's
          dsimp only
          rw [hrow]
          simpa using hreps
      · rw [if_neg h2]; exact hchainL
    · rw [if_neg h1]; exact hchainL

/-- C10: for every call with positive finite increment, the returned
rows have nondecreasing weights and nonincreasing reps from the first
row to the last, and within the loop-emitted rungs each successive rung
has exactly one rep fewer than its predecessor. -/
theorem ladderPlan_rows_ordered (i : ℚ) (dm cap bw : JSNum) (pu : Bool)
    (hi : 0 < i) :
    List.Chain' (fun a b => JSNum.le a.weight b.weight = true ∧
        JSNum.le b.reps a.reps = true) (ladderPlan dm (num i) cap pu bw).sets ∧
    List.Chain' (fun a b => b.reps = JSNum.sub a.reps 1)
      (buildLadder 400 (ladderStart dm (num i) cap pu).1
        (ladderStart dm (num i) cap pu).2 (num i) dm) := by
  refine ⟨?_, List.Chain'.imp (fun a b h => h.2.2)
    (buildLadder_chain i hi 400 _ _ dm)⟩
  have hi0 : JSNum.toBool (num i) = true := by simp [hi.ne']
  by_cases hdm : JSNum.toBool dm = true
  · have hcore := appendFinal_chain i hi (ladderStart dm (num i) cap pu).1
      (ladderStart dm (num i) cap pu).2 dm
    cases pu with
    | false =>
      have hplan : (ladderPlan dm (num i) cap false bw).sets =
          appendFinal (buildLadder 400 (ladderStart dm (num i) cap false).1
            (ladderStart dm (num i) cap false).2 (num i) dm) dm := by
        simp [ladderPlan, hdm, hi0]
      rw [hplan]
      exact hcore
    | true =>
      have hplan : (ladderPlan dm (num i) cap true bw).sets =
          (appendFinal (buildLadder 400 (ladderStart dm (num i) cap true).1
            (ladderStart dm (num i) cap true).2 (num i) dm) dm).map
            (fun r => { r with external := some (round2 (JSNum.sub r.weight bw)) }) := by
        simp [ladderPlan, hdm, hi0]
      rw [hplan, List.chain'_map]
      exact hcore
  · have hdm' : JSNum.toBool dm = false := by
      cases h : JSNum.toBool dm
      · rfl
      · exact absurd h hdm
    have hplan : (ladderPlan dm (num i) cap pu bw).sets = [] := by
      simp [ladderPlan, hdm']
    rw [hplan]
    simp

/-- Witness for `ladderPlan_rows_ordered` at `dailyMax = 160`,
`increment = 10`. -/
theorem ladderPlan_rows_ordered_at_160 :
    List.Chain' (fun a b => JSNum.le a.weight b.weight = true ∧
        JSNum.le b.reps a.reps = true)
      (ladderPlan (num 160) (num 10) (num 12) false (num 80)).sets ∧
    List.Chain' (fun a b => b.reps = JSNum.sub a.reps 1)
      (buildLadder 400 (ladderStart (num 160) (num 10) (num 12) false).1
        (ladderStart (num 160) (num 10) (num 12) false).2 (num 10) (num 160)) :=
  ladderPlan_rows_ordered 10 (num 160) (num 12) (num 80) false (by norm_num)

/-! ## Weight floors (claims C3 and C4) -/

theorem mem_appendFinal {r : LadderRow} {sets : List LadderRow} {top : JSNum}
    (h : r ∈ appendFinal sets top) :
    r ∈ sets ∨ r = ⟨roundToNearest2point5 top, 1, none⟩ := by
  cases hlast : sets.getLast? with
  | none =>
    rw [appendFinal_none hlast] at h
    rcases List.mem_append.mp h with h' | h'
    · exact Or.inl h'
    · exact Or.inr (by simpa using h')
  | some last =>
    rw [appendFinal_some hlast] at h
    by_cases h1 : (JSNum.gt (JSNum.abs (JSNum.sub last.weight top)) (num (5 / 2))
        || !(JSNum.seq last.reps 1)) = true
    · rw [if_pos h1] at h
      by_cases h2 : JSNum.gt top last.weight = true
      · rw [if_pos h2] at h
        rcases List.mem_append.mp h with h' | h'
        · exact Or.inl h'
        · exact Or.inr (by simpa using h')
      · rw [if_neg h2] at h; exact Or.inl h
    · rw [if_neg h1] at h; exact Or.inl h

/-- A truthy JS number is a non-zero rational or a signed infinity. -/
theorem JSNum.toBool_cases {x : JSNum} (h : JSNum.toBool x = true) :
    (∃ a : ℚ, x = num a ∧ a ≠ 0) ∨ x = inf ∨ x = ninf := by
  cases x with
  | num a => exact Or.inl ⟨a, rfl, by simpa using h⟩
  | nan => simp at h
  | inf => exact Or.inr (Or.inl rfl)
  | ninf => exact Or.inr (Or.inr rfl)

theorem iterAdd_num_inf_succ (w0 : ℚ) (m : ℕ) : iterAdd (num w0) inf (m + 1) = inf := by
  induction m with
  | zero => rfl
  | succ m ih => rw [iterAdd_succ, ih]; rfl

theorem iterAdd_num_ninf_succ (w0 : ℚ) (m : ℕ) :
    iterAdd (num w0) ninf (m + 1) = ninf := by
  induction m with
  | zero => rfl
  | succ m ih => rw [iterAdd_succ, ih]; rfl

theorem iterAdd_inf_ninf_succ (m : ℕ) : iterAdd inf ninf (m + 1) = nan := by
  induction m with
  | zero => rfl
  | succ m ih => rw [iterAdd_succ, ih]; rfl

theorem iterAdd_ninf_inf_succ (m : ℕ) : iterAdd ninf inf (m + 1) = nan := by
  induction m with
  | zero => rfl
  | succ m ih => rw [iterAdd_succ, ih]; rfl

theorem iterAdd_ninf_ninf (m : ℕ) : iterAdd ninf ninf m = ninf := by
  induction m with
  | zero => rfl
  | succ m ih => rw [iterAdd_succ, ih]; rfl

/-- A rep count at most 1 forces the loop conditions to hold only at the
first iteration. -/
theorem iterSub_le_one_m0 {r : ℚ} (hr : r ≤ 1) {m : ℕ}
    (h : JSNum.le 1 (iterSub (num r) m) = true) : m = 0 := by
  simp only [iterSub_num, JSNum.one_def, JSNum.le_num, decide_eq_true_eq] at h
  have hm : (m : ℚ) ≤ 0 := by linarith
  have hm' : (m : ℚ) = 0 := le_antisymm hm (by positivity)
  exact_mod_cast hm'

/-! ## Exhaustive simp rules for mixed finite/non-finite operands -/

namespace JSNum

@[simp] theorem add_inf_inf : add inf inf = inf := rfl

@[simp] theorem add_ninf_ninf : add ninf ninf = ninf := rfl

@[simp] theorem add_inf_ninf : add inf ninf = nan := rfl

@[simp] theorem add_ninf_inf : add ninf inf = nan := rfl

@[simp] theorem sub_num_inf (a : ℚ) : sub (num a) inf = ninf := rfl

@[simp] theorem sub_num_ninf (a : ℚ) : sub (num a) ninf = inf := rfl

@[simp] theorem sub_inf_num (a : ℚ) : sub inf (num a) = inf := rfl

@[simp] theorem sub_inf_inf : sub inf inf = nan := rfl

@[simp] theorem sub_inf_ninf : sub inf ninf = inf := rfl

@[simp] theorem sub_ninf_inf : sub ninf inf = ninf := rfl

@[simp] theorem sub_ninf_ninf : sub ninf ninf = nan := rfl

@[simp] theorem sub_nan (x : JSNum) : sub nan x = nan := by cases x <;> rfl

@[simp] theorem sub_nan_right (x : JSNum) : sub x nan = nan := by cases x <;> rfl

@[simp] theorem mul_nan (x : JSNum) : mul nan x = nan := by cases x <;> rfl

@[simp] theorem mul_nan_right (x : JSNum) : mul x nan = nan := by cases x <;> rfl

@[simp] theorem mul_inf_inf : mul inf inf = inf := rfl

@[simp] theorem mul_inf_ninf : mul inf ninf = ninf := rfl

@[simp] theorem mul_ninf_inf : mul ninf inf = ninf := rfl

@[simp] theorem mul_ninf_ninf : mul ninf ninf = inf := rfl

theorem mul_inf_num_pos {b : ℚ} (hb : 0 < b) : mul inf (num b) = inf := by
  simp [mul, mulInfNum, hb]

theorem mul_inf_num_neg {b : ℚ} (hb : b < 0) : mul inf (num b) = ninf := by
  simp [mul, mulInfNum, hb, asymm hb]

@[simp] theorem mul_inf_num_zero : mul inf (num 0) = nan := by
  simp [mul, mulInfNum]

theorem mul_ninf_num_pos {b : ℚ} (hb : 0 < b) : mul ninf (num b) = ninf := by
  simp [mul, mulInfNum, hb]

theorem mul_ninf_num_neg {b : ℚ} (hb : b < 0) : mul ninf (num b) = inf := by
  simp [mul, mulInfNum, hb, asymm hb]

@[simp] theorem mul_ninf_num_zero : mul ninf (num 0) = nan := by
  simp [mul, mulInfNum]

@[simp] theorem div_num_inf (a : ℚ) : div (num a) inf = num 0 := rfl

@[simp] theorem div_num_ninf (a : ℚ) : div (num a) ninf = num 0 := rfl

theorem div_inf_num_nonneg {b : ℚ} (hb : 0 ≤ b) : div inf (num b) = inf := by
  simp [div, not_lt.mpr hb]

theorem div_inf_num_neg {b : ℚ} (hb : b < 0) : div inf (num b) = ninf := by
  simp [div, hb]

theorem div_ninf_num_nonneg {b : ℚ} (hb : 0 ≤ b) : div ninf (num b) = ninf := by
  simp [div, not_lt.mpr hb]

theorem div_ninf_num_neg {b : ℚ} (hb : b < 0) : div ninf (num b) = inf := by
  simp [div, hb]

@[simp] theorem div_inf_inf : div inf inf = nan := rfl

@[simp] theorem div_inf_ninf : div inf ninf = nan := rfl

@[simp] theorem div_ninf_inf : div ninf inf = nan := rfl

@[simp] theorem div_ninf_ninf : div ninf ninf = nan := rfl

@[simp] theorem round_nan : round nan = nan := rfl

@[simp] theorem round_inf : round inf = inf := rfl

@[simp] theorem round_ninf : round ninf = ninf := rfl

@[simp] theorem floor_nan : floor nan = nan := rfl

@[simp] theorem floor_inf : floor inf = inf := rfl

@[simp] theorem floor_ninf : floor ninf = ninf := rfl

@[simp] theorem min_nan (x : JSNum) : min nan x = nan := by cases x <;> rfl

@[simp] theorem min_nan_right (x : JSNum) : min x nan = nan := by cases x <;> rfl

@[simp] theorem min_num_inf (a : ℚ) : min (num a) inf = num a := rfl

@[simp] theorem min_inf_num (a : ℚ) : min inf (num a) = num a := rfl

@[simp] theorem min_num_ninf (a : ℚ) : min (num a) ninf = ninf := rfl

@[simp] theorem min_ninf_num (a : ℚ) : min ninf (num a) = ninf := rfl

@[simp] theorem min_inf_inf : min inf inf = inf := rfl

@[simp] theorem min_ninf_inf : min ninf inf = ninf := rfl

@[simp] theorem min_inf_ninf : min inf ninf = ninf := rfl

@[simp] theorem min_ninf_ninf : min ninf ninf = ninf := rfl

@[simp] theorem max_nan (x : JSNum) : max nan x = nan := by cases x <;> rfl

@[simp] theorem max_nan_right (x : JSNum) : max x nan = nan := by cases x <;> rfl

@[simp] theorem max_num_inf (a : ℚ) : max (num a) inf = inf := rfl

@[simp] theorem max_inf_num (a : ℚ) : max inf (num a) = inf := rfl

@[simp] theorem max_num_ninf (a : ℚ) : max (num a) ninf = num a := rfl

@[simp] theorem max_ninf_num (a : ℚ) : max ninf (num a) = num a := rfl

@[simp] theorem max_inf_inf : max inf inf = inf := rfl

@[simp] theorem max_ninf_inf : max ninf inf = inf := rfl

@[simp] theorem max_inf_ninf : max inf ninf = inf := rfl

@[simp] theorem max_ninf_ninf : max ninf ninf = ninf := rfl

@[simp] theorem le_nan_right (x : JSNum) : le x nan = false := by cases x <;> rfl

@[simp] theorem le_inf_ninf : le inf ninf = false := rfl

@[simp] theorem lt_inf_num (a : ℚ) : lt inf (num a) = false := rfl

@[simp] theorem lt_ninf_inf : lt ninf inf = true := rfl

@[simp] theorem lt_ninf_ninf : lt ninf ninf = false := rfl

@[simp] theorem seq_nan (x : JSNum) : seq nan x = false := by cases x <;> rfl

@[simp] theorem seq_nan_right (x : JSNum) : seq x nan = false := by cases x <;> rfl

@[simp] theorem seq_inf_inf : seq inf inf = true := rfl

@[simp] theorem seq_ninf_ninf : seq ninf ninf = true := rfl

end JSNum

theorem roundQ_one : roundQ 1 = 1 := by norm_num [roundQ]

namespace JSNum

theorem mul_num_inf_pos {a : ℚ} (ha : 0 < a) : mul (num a) inf = inf := by
  simp [mul, mulInfNum, ha]

theorem mul_num_inf_neg {a : ℚ} (ha : a < 0) : mul (num a) inf = ninf := by
  simp [mul, mulInfNum, ha, asymm ha]

@[simp] theorem mul_num_inf_zero : mul (num 0) inf = nan := by
  simp [mul, mulInfNum]

theorem mul_num_ninf_pos {a : ℚ} (ha : 0 < a) : mul (num a) ninf = ninf := by
  simp [mul, mulInfNum, ha]

theorem mul_num_ninf_neg {a : ℚ} (ha : a < 0) : mul (num a) ninf = inf := by
  simp [mul, mulInfNum, ha, asymm ha]

@[simp] theorem mul_num_ninf_zero : mul (num 0) ninf = nan := by
  simp [mul, mulInfNum]

end JSNum

/-- Conclusion pattern: a finite rounded weight at least the floor. -/
theorem floor_goal_num {B w0 : ℚ} (hB : B = rstepQ B) (hw : B ≤ w0) :
    JSNum.le (num B) (roundToNearest2point5 (num w0)) = true := by
  simp only [roundToNearest2point5_num, JSNum.le_num, decide_eq_true_eq]
  calc B = rstepQ B := hB
    _ ≤ rstepQ w0 := rstepQ_mono hw

/-- Conclusion pattern: an infinite weight is above any floor. -/
theorem floor_goal_inf (B : ℚ) :
    JSNum.le (num B) (roundToNearest2point5 inf) = true := by simp

/-- Conclusion pattern: loop weights starting at `w0 ≥ B` with a
nonnegative finite increment stay at least `B`. -/
theorem floor_goal_pos_inc {B w0 i : ℚ} (hB : B = rstepQ B) (hw : B ≤ w0)
    (hi : 0 ≤ i) (m : ℕ) :
    JSNum.le (num B) (roundToNearest2point5 (iterAdd (num w0) (num i) m)) = true := by
  rw [iterAdd_num]
  refine floor_goal_num hB ?_
  have : 0 ≤ (m : ℚ) * i := mul_nonneg (by positivity) hi
  linarith

/-- Conclusion pattern: in the unclamped second barbell branch with a
negative increment, the rep bound keeps every visited weight at least
the (finite) target. -/
theorem floor_goal_neg_inc {B q i c : ℚ} (hB : B = rstepQ B) (hq : B ≤ q)
    (hi : i < 0) (m : ℕ) (h1 : JSNum.le 1 (iterSub (num c) m) = true) :
    JSNum.le (num B)
      (roundToNearest2point5 (iterAdd (num (q - i * (c - 1))) (num i) m)) = true := by
  rw [iterAdd_num]
  refine floor_goal_num hB ?_
  have hm : (1 : ℚ) ≤ c - m := by
    simpa using h1
  have hle : (m : ℚ) - (c - 1) ≤ 0 := by linarith
  have : 0 ≤ i * ((m : ℚ) - (c - 1)) := by nlinarith
  have harg : q - i * (c - 1) + m * i = q + i * ((m : ℚ) - (c - 1)) := by ring
  rw [harg]
  linarith

/-- C3 amended: for `isPullup = false` and `dailyMax ≥ 20` (finite or
infinite; any increment and `startRepCap`), every returned row has
weight at least the bar weight 20.  (For `dailyMax` below the bar the
appended synthetic single sits below 20 — see the counterexample.) -/
theorem ladderPlan_barbell_bar_floor (dm inc cap bw : JSNum)
    (hdm : JSNum.le (num 20) dm = true) :
    ((ladderPlan dm inc cap false bw).sets.all fun r =>
      JSNum.le (num 20) r.weight) = true := by
  have hB : (20 : ℚ) = rstepQ 20 := rstepQ_twenty.symm
  have hBAR : (20 : ℚ) ≤ BAR := by norm_num [BAR]
  by_cases hg : JSNum.toBool dm = true ∧ JSNum.toBool inc = true
  swap
  · have hguard : (!(JSNum.toBool dm) || !(JSNum.toBool inc)) = true := by
      cases h1 : JSNum.toBool dm <;> cases h2 : JSNum.toBool inc
      · rfl
      · rfl
      · rfl
      · exact absurd ⟨h1, h2⟩ hg
    simp [ladderPlan, hguard]
  obtain ⟨hdm', hinc'⟩ := hg
  have hplan : (ladderPlan dm inc cap false bw).sets =
      appendFinal (buildLadder 400 (ladderStart dm inc cap false).1
        (ladderStart dm inc cap false).2 inc dm) dm := by
    simp [ladderPlan, hdm', hinc']
  rw [hplan, List.all_eq_true]
  intro r hr
  have hfin : JSNum.le (num 20) (roundToNearest2point5 dm) = true := by
    rcases JSNum.num_le_cases hdm with ⟨a, ha, hab⟩ | hinf
    · rw [ha]; exact floor_goal_num hB hab
    · rw [hinf]; exact floor_goal_inf 20
  rcases mem_appendFinal hr with hloop | hfin'
  swap
  · rw [hfin']; simpa using hfin
  rcases buildLadder_mem hloop with ⟨m, hrow, h1, h2⟩
  rw [hrow]
  dsimp only
  rcases JSNum.num_le_cases hdm with ⟨qv, hdmq, hq20⟩ | hdminf
  · -- finite dailyMax qv ≥ 20
    subst hdmq
    rcases JSNum.toBool_cases hinc' with ⟨i, hieq, hine⟩ | hiinf | hininf
    · -- finite increment
      subst hieq
      -- with a start rep count at most 1 only the first rung (at the
      -- bar) is visited
      have hm0 : ∀ (rv : ℚ), (ladderStart (num qv) (num i) cap false).1 = num rv →
          rv ≤ 1 → JSNum.le (num 20)
            (roundToNearest2point5 (iterAdd (num BAR) (num i) m)) = true := by
        intro rv hrv hrv1
        rw [hrv] at h1
        rw [iterSub_le_one_m0 hrv1 h1]
        simpa using floor_goal_num hB hBAR
      -- a nonpositive ratio keeps the rounded start rep count at most 1
      have hr0le : i < 0 → (roundQ (1 + (qv - BAR) / i) : ℚ) ≤ 1 := by
        intro hineg
        have hn : (0 : ℚ) ≤ qv - BAR := by norm_num [BAR]; linarith
        have hinv : i⁻¹ ≤ 0 := inv_nonpos.mpr (le_of_lt hineg)
        have hdiv : (qv - BAR) / i ≤ 0 := by
          rw [div_eq_mul_inv]; nlinarith
        have := roundQ_mono (show 1 + (qv - BAR) / i ≤ 1 by linarith)
        rw [roundQ_one] at this
        exact_mod_cast this
      rcases hine.lt_or_lt with hineg | hipos
      · -- negative increment
        cases cap with
        | nan =>
          have hst1 : (ladderStart (num qv) (num i) nan false).1 = nan := by
            simp [ladderStart, JSNum.div_num _ _ hine]
          rw [hst1] at h1; simp at h1
        | ninf =>
          have hst1 : (ladderStart (num qv) (num i) ninf false).1 = num 1 := by
            simp [ladderStart, JSNum.div_num _ _ hine, JSNum.mul_num_ninf_neg hineg]
          have hst2 : (ladderStart (num qv) (num i) ninf false).2 = num BAR := by
            simp [ladderStart, JSNum.div_num _ _ hine, JSNum.mul_num_ninf_neg hineg]
          rw [hst2]
          exact hm0 1 hst1 le_rfl
        | inf =>
          by_cases h1le : (1 : ℚ) ≤ (roundQ (1 + (qv - BAR) / i) : ℚ)
          · have hst1 : (ladderStart (num qv) (num i) inf false).1 =
                num (roundQ (1 + (qv - BAR) / i)) := by
              simp [ladderStart, JSNum.div_num _ _ hine, h1le]
            have hst2 : (ladderStart (num qv) (num i) inf false).2 = num BAR := by
              simp [ladderStart, JSNum.div_num _ _ hine, h1le]
            rw [hst2]
            exact hm0 _ hst1 (hr0le hineg)
          · have hst2 : (ladderStart (num qv) (num i) inf false).2 = inf := by
              simp [ladderStart, JSNum.div_num _ _ hine, h1le,
                JSNum.mul_num_inf_neg hineg]
            rw [hst2] at h2
            simp at h2
        | num c =>
          by_cases hb1 : (roundQ (1 + (qv - BAR) / i) : ℚ) ≤ c ∧
              (1 : ℚ) ≤ (roundQ (1 + (qv - BAR) / i) : ℚ)
          · have hst1 : (ladderStart (num qv) (num i) (num c) false).1 =
                num (roundQ (1 + (qv - BAR) / i)) := by
              simp [ladderStart, JSNum.div_num _ _ hine, hb1.1, hb1.2]
            have hst2 : (ladderStart (num qv) (num i) (num c) false).2 = num BAR := by
              simp [ladderStart, JSNum.div_num _ _ hine, hb1.1, hb1.2]
            rw [hst2]
            exact hm0 _ hst1 (hr0le hineg)
          · rw [not_and_or] at hb1
            by_cases hcl : qv - i * (c - 1) < BAR
            · have hst1 : (ladderStart (num qv) (num i) (num c) false).1 =
                  num (Max.max 1 (Min.min c (1 + ⌊(qv - BAR) / i⌋))) := by
                rcases hb1 with hb | hb <;>
                  simp [ladderStart, JSNum.div_num _ _ hine, hb, hcl]
              have hst2 : (ladderStart (num qv) (num i) (num c) false).2 =
                  num BAR := by
                rcases hb1 with hb | hb <;>
                  simp [ladderStart, JSNum.div_num _ _ hine, hb, hcl]
              rw [hst2]
              have hxle : (Max.max 1 (Min.min c ((1 + ⌊(qv - BAR) / i⌋ : ℤ) : ℚ))) ≤ 1 := by
                have hn : (0 : ℚ) ≤ qv - BAR := by norm_num [BAR]; linarith
                have hinv : i⁻¹ ≤ 0 := inv_nonpos.mpr (le_of_lt hineg)
                have hdiv : (qv - BAR) / i ≤ 0 := by
                  rw [div_eq_mul_inv]; nlinarith
                have hfl : (⌊(qv - BAR) / i⌋ : ℚ) ≤ 0 := by
                  exact_mod_cast Int.floor_nonpos hdiv
                have hmin : (Min.min c ((1 + ⌊(qv - BAR) / i⌋ : ℤ) : ℚ)) ≤ 1 := by
                  push_cast
                  exact le_trans (min_le_right _ _) (by linarith)
                exact max_le le_rfl hmin
              refine hm0 _ ?_ hxle
              rw [hst1]
              push_cast
              rfl
            · have hst1 : (ladderStart (num qv) (num i) (num c) false).1 = num c := by
                rcases hb1 with hb | hb <;>
                  simp [ladderStart, JSNum.div_num _ _ hine, hb, hcl]
              have hst2 : (ladderStart (num qv) (num i) (num c) false).2 =
                  num (qv - i * (c - 1)) := by
                rcases hb1 with hb | hb <;>
                  simp [ladderStart, JSNum.div_num _ _ hine, hb, hcl]
              rw [hst2]
              rw [hst1] at h1
              exact floor_goal_neg_inc hB hq20 hineg m h1
      · -- positive increment
        have hpos20 : ∀ (wv : ℚ), (ladderStart (num qv) (num i) cap false).2 = num wv →
            20 ≤ wv → JSNum.le (num 20)
              (roundToNearest2point5 (iterAdd ((ladderStart (num qv) (num i) cap false).2)
                (num i) m)) = true := by
          intro wv hwv hwv20
          rw [hwv]
          exact floor_goal_pos_inc hB hwv20 (le_of_lt hipos) m
        cases cap with
        | nan =>
          have hst1 : (ladderStart (num qv) (num i) nan false).1 = nan := by
            simp [ladderStart, JSNum.div_num _ _ hine]
          rw [hst1] at h1; simp at h1
        | ninf =>
          have hst1 : (ladderStart (num qv) (num i) ninf false).1 = ninf := by
            simp [ladderStart, JSNum.div_num _ _ hine, JSNum.mul_num_ninf_pos hipos]
          rw [hst1] at h1; simp at h1
        | inf =>
          by_cases h1le : (1 : ℚ) ≤ (roundQ (1 + (qv - BAR) / i) : ℚ)
          · have hst2 : (ladderStart (num qv) (num i) inf false).2 = num BAR := by
              simp [ladderStart, JSNum.div_num _ _ hine, h1le]
            rw [hst2]
            exact floor_goal_pos_inc hB hBAR (le_of_lt hipos) m
          · have hst2 : (ladderStart (num qv) (num i) inf false).2 = num BAR := by
              simp [ladderStart, JSNum.div_num _ _ hine, h1le,
                JSNum.mul_num_inf_pos hipos]
            rw [hst2]
            exact floor_goal_pos_inc hB hBAR (le_of_lt hipos) m
        | num c =>
          by_cases hb1 : (roundQ (1 + (qv - BAR) / i) : ℚ) ≤ c ∧
              (1 : ℚ) ≤ (roundQ (1 + (qv - BAR) / i) : ℚ)
          · have hst2 : (ladderStart (num qv) (num i) (num c) false).2 = num BAR := by
              simp [ladderStart, JSNum.div_num _ _ hine, hb1.1, hb1.2]
            rw [hst2]
            exact floor_goal_pos_inc hB hBAR (le_of_lt hipos) m
          · rw [not_and_or] at hb1
            by_cases hcl : qv - i * (c - 1) < BAR
            · have hst2 : (ladderStart (num qv) (num i) (num c) false).2 =
                  num BAR := by
                rcases hb1 with hb | hb <;>
                  simp [ladderStart, JSNum.div_num _ _ hine, hb, hcl]
              rw [hst2]
              exact floor_goal_pos_inc hB hBAR (le_of_lt hipos) m
            · have hst2 : (ladderStart (num qv) (num i) (num c) false).2 =
                  num (qv - i * (c - 1)) := by
                rcases hb1 with hb | hb <;>
                  simp [ladderStart, JSNum.div_num _ _ hine, hb, hcl]
              rw [hst2]
              have hw20 : (20 : ℚ) ≤ qv - i * (c - 1) := by
                have := not_lt.mp hcl
                norm_num [BAR] at this
                linarith
              exact floor_goal_pos_inc hB hw20 (le_of_lt hipos) m
    · -- increment = +Infinity
      subst hiinf
      have hconc : ∀ m', JSNum.le (num 20)
          (roundToNearest2point5 (iterAdd (num BAR) inf m')) = true := by
        intro m'
        cases m' with
        | zero => simpa using floor_goal_num hB hBAR
        | succ m'' => rw [iterAdd_num_inf_succ]; exact floor_goal_inf 20
      cases cap with
      | nan =>
        have hst1 : (ladderStart (num qv) inf nan false).1 = nan := by
          simp [ladderStart]
        rw [hst1] at h1; simp at h1
      | ninf =>
        have hst1 : (ladderStart (num qv) inf ninf false).1 = ninf := by
          simp [ladderStart, roundQ_one]
        rw [hst1] at h1; simp at h1
      | inf =>
        have hst2 : (ladderStart (num qv) inf inf false).2 = num BAR := by
          simp [ladderStart, roundQ_one]
        rw [hst2]
        exact hconc m
      | num c =>
        by_cases hc : (1 : ℚ) ≤ c
        · have hst2 : (ladderStart (num qv) inf (num c) false).2 = num BAR := by
            simp [ladderStart, roundQ_one, hc]
          rw [hst2]
          exact hconc m
        · have hst2 : (ladderStart (num qv) inf (num c) false).2 = inf := by
            simp [ladderStart, roundQ_one, hc,
              JSNum.mul_inf_num_neg (show c - 1 < 0 by linarith [not_le.mp hc])]
          rw [hst2, iterAdd_inf_inf]
          exact floor_goal_inf 20
    · -- increment = -Infinity
      subst hininf
      have hm0' : ∀ (rv : ℚ), (ladderStart (num qv) ninf cap false).1 = num rv →
          rv ≤ 1 → JSNum.le (num 20)
            (roundToNearest2point5 (iterAdd (num BAR) ninf m)) = true := by
        intro rv hrv hrv1
        rw [hrv] at h1
        rw [iterSub_le_one_m0 hrv1 h1]
        simpa using floor_goal_num hB hBAR
      cases cap with
      | nan =>
        have hst1 : (ladderStart (num qv) ninf nan false).1 = nan := by
          simp [ladderStart]
        rw [hst1] at h1; simp at h1
      | ninf =>
        have hst1 : (ladderStart (num qv) ninf ninf false).1 = num 1 := by
          simp [ladderStart, roundQ_one]
        have hst2 : (ladderStart (num qv) ninf ninf false).2 = num BAR := by
          simp [ladderStart, roundQ_one]
        rw [hst2]
        exact hm0' 1 hst1 le_rfl
      | inf =>
        have hst1 : (ladderStart (num qv) ninf inf false).1 = num 1 := by
          simp [ladderStart, roundQ_one]
        have hst2 : (ladderStart (num qv) ninf inf false).2 = num BAR := by
          simp [ladderStart, roundQ_one]
        rw [hst2]
        exact hm0' 1 hst1 le_rfl
      | num c =>
        by_cases hc : (1 : ℚ) ≤ c
        · have hst1 : (ladderStart (num qv) ninf (num c) false).1 = num 1 := by
            simp [ladderStart, roundQ_one, hc]
          have hst2 : (ladderStart (num qv) ninf (num c) false).2 = num BAR := by
            simp [ladderStart, roundQ_one, hc]
          rw [hst2]
          exact hm0' 1 hst1 le_rfl
        · have hst1 : (ladderStart (num qv) ninf (num c) false).1 = num 1 := by
            simp [ladderStart, roundQ_one, hc,
              JSNum.mul_ninf_num_neg (show c - 1 < 0 by linarith [not_le.mp hc])]
          have hst2 : (ladderStart (num qv) ninf (num c) false).2 = num BAR := by
            simp [ladderStart, roundQ_one, hc,
              JSNum.mul_ninf_num_neg (show c - 1 < 0 by linarith [not_le.mp hc])]
          rw [hst2]
          exact hm0' 1 hst1 le_rfl
  · -- dailyMax = +Infinity
    subst hdminf
    rcases JSNum.toBool_cases hinc' with ⟨i, hieq, hine⟩ | hiinf | hininf
    · subst hieq
      rcases hine.lt_or_lt with hineg | hipos
      · -- negative finite increment: the second branch always applies
        cases cap with
        | nan =>
          have hst1 : (ladderStart inf (num i) nan false).1 = nan := by
            simp [ladderStart, JSNum.div_inf_num_neg hineg]
          rw [hst1] at h1; simp at h1
        | ninf =>
          have hst2 : (ladderStart inf (num i) ninf false).2 = nan := by
            simp [ladderStart, JSNum.div_inf_num_neg hineg,
              JSNum.mul_num_ninf_neg hineg]
          rw [hst2] at h2; simp at h2
        | inf =>
          have hst2 : (ladderStart inf (num i) inf false).2 = inf := by
            simp [ladderStart, JSNum.div_inf_num_neg hineg,
              JSNum.mul_num_inf_neg hineg]
          rw [hst2, iterAdd_inf_num]
          exact floor_goal_inf 20
        | num c =>
          have hst2 : (ladderStart inf (num i) (num c) false).2 = inf := by
            simp [ladderStart, JSNum.div_inf_num_neg hineg]
          rw [hst2, iterAdd_inf_num]
          exact floor_goal_inf 20
      · -- positive finite increment
        cases cap with
        | nan =>
          have hst1 : (ladderStart inf (num i) nan false).1 = nan := by
            simp [ladderStart, JSNum.div_inf_num_nonneg (le_of_lt hipos)]
          rw [hst1] at h1; simp at h1
        | ninf =>
          have hst1 : (ladderStart inf (num i) ninf false).1 = ninf := by
            simp [ladderStart, JSNum.div_inf_num_nonneg (le_of_lt hipos),
              JSNum.mul_num_ninf_pos hipos]
          rw [hst1] at h1; simp at h1
        | inf =>
          have hst2 : (ladderStart inf (num i) inf false).2 = num BAR := by
            simp [ladderStart, JSNum.div_inf_num_nonneg (le_of_lt hipos)]
          rw [hst2]
          exact floor_goal_pos_inc hB hBAR (le_of_lt hipos) m
        | num c =>
          have hst2 : (ladderStart inf (num i) (num c) false).2 = inf := by
            simp [ladderStart, JSNum.div_inf_num_nonneg (le_of_lt hipos)]
          rw [hst2, iterAdd_inf_num]
          exact floor_goal_inf 20
    · -- increment = +Infinity
      subst hiinf
      cases cap with
      | nan =>
        have hst1 : (ladderStart inf inf nan false).1 = nan := by
          simp [ladderStart]
        rw [hst1] at h1; simp at h1
      | ninf =>
        have hst1 : (ladderStart inf inf ninf false).1 = ninf := by
          simp [ladderStart]
        rw [hst1] at h1; simp at h1
      | inf =>
        have hst2 : (ladderStart inf inf inf false).2 = nan := by
          simp [ladderStart]
        rw [hst2] at h2; simp at h2
      | num c =>
        rcases lt_trichotomy c 1 with hc | hc | hc
        · have hst2 : (ladderStart inf inf (num c) false).2 = inf := by
            simp [ladderStart, JSNum.mul_inf_num_neg (show c - 1 < 0 by linarith)]
          rw [hst2, iterAdd_inf_inf]
          exact floor_goal_inf 20
        · have hst2 : (ladderStart inf inf (num c) false).2 = nan := by
            subst hc
            simp [ladderStart]
          rw [hst2] at h2; simp at h2
        · have hst2 : (ladderStart inf inf (num c) false).2 = nan := by
            simp [ladderStart, JSNum.mul_inf_num_pos (show 0 < c - 1 by linarith)]
          rw [hst2] at h2; simp at h2
    · -- increment = -Infinity
      subst hininf
      have hconc : ∀ m', JSNum.le (iterAdd inf ninf m')
            (JSNum.add inf (num (1 / 1000000))) = true →
          JSNum.le (num 20) (roundToNearest2point5 (iterAdd inf ninf m')) = true := by
        intro m' hm'
        cases m' with
        | zero => exact floor_goal_inf 20
        | succ m'' => rw [iterAdd_inf_ninf_succ] at hm'; simp at hm'
      cases cap with
      | nan =>
        have hst1 : (ladderStart inf ninf nan false).1 = nan := by
          simp [ladderStart]
        rw [hst1] at h1; simp at h1
      | ninf =>
        have hst1 : (ladderStart inf ninf ninf false).1 = ninf := by
          simp [ladderStart]
        rw [hst1] at h1; simp at h1
      | inf =>
        have hst2 : (ladderStart inf ninf inf false).2 = inf := by
          simp [ladderStart]
        rw [hst2] at h2 ⊢
        exact hconc m h2
      | num c =>
        rcases lt_trichotomy c 1 with hc | hc | hc
        · have hst2 : (ladderStart inf ninf (num c) false).2 = nan := by
            simp [ladderStart, JSNum.mul_ninf_num_neg (show c - 1 < 0 by linarith)]
          rw [hst2] at h2; simp at h2
        · have hst2 : (ladderStart inf ninf (num c) false).2 = nan := by
            subst hc
            simp [ladderStart]
          rw [hst2] at h2; simp at h2
        · have hst2 : (ladderStart inf ninf (num c) false).2 = inf := by
            simp [ladderStart, JSNum.mul_ninf_num_pos (show 0 < c - 1 by linarith)]
          rw [hst2] at h2 ⊢
          exact hconc m h2

/-- Witness for `ladderPlan_barbell_bar_floor` at `dailyMax = 160`,
`increment = 10`. -/
theorem ladderPlan_barbell_bar_floor_at_160 :
    ((ladderPlan (num 160) (num 10) (num 12) false (num 80)).sets.all fun r =>
      JSNum.le (num 20) r.weight) = true :=
  ladderPlan_barbell_bar_floor (num 160) (num 10) (num 12) (num 80) (by decide)

/-- A value strictly above a finite JS number is finite or
`+Infinity`. -/
theorem JSNum.num_lt_cases {x : JSNum} {b : ℚ} (h : JSNum.lt (num b) x = true) :
    (∃ a, x = num a ∧ b < a) ∨ x = inf := by
  cases x with
  | num a => exact Or.inl ⟨a, rfl, by simpa using h⟩
  | nan => simp at h
  | inf => exact Or.inr rfl
  | ninf => simp at h

/-- C4 amended: for `isPullup = true` and positive `dailyMax` (finite or
infinite; any increment and `startRepCap`), every returned row has
nonnegative weight.  (For negative `dailyMax` the appended synthetic
single is negative — see the counterexample.) -/
theorem ladderPlan_pullup_weight_floor (dm inc cap bw : JSNum)
    (hdm : JSNum.lt (num 0) dm = true) :
    ((ladderPlan dm inc cap true bw).sets.all fun r =>
      JSNum.le (num 0) r.weight) = true := by
  have hB : (0 : ℚ) = rstepQ 0 := rstepQ_zero.symm
  by_cases hg : JSNum.toBool dm = true ∧ JSNum.toBool inc = true
  swap
  · have hguard : (!(JSNum.toBool dm) || !(JSNum.toBool inc)) = true := by
      cases h1 : JSNum.toBool dm <;> cases h2 : JSNum.toBool inc
      · rfl
      · rfl
      · rfl
      · exact absurd ⟨h1, h2⟩ hg
    simp [ladderPlan, hguard]
  obtain ⟨hdm', hinc'⟩ := hg
  have hplan : (ladderPlan dm inc cap true bw).sets =
      (appendFinal (buildLadder 400 (ladderStart dm inc cap true).1
        (ladderStart dm inc cap true).2 inc dm) dm).map
        (fun r => { r with external := some (round2 (JSNum.sub r.weight bw)) }) := by
    simp [ladderPlan, hdm', hinc']
  rw [hplan, List.all_eq_true]
  intro r' hr'
  rcases List.mem_map.mp hr' with ⟨r, hr, hmap⟩
  rw [← hmap]
  have hgoal : JSNum.le (num 0) r.weight = true →
      (fun r => JSNum.le (num 0) r.weight)
        ({ r with external := some (round2 (JSNum.sub r.weight bw)) }) = true := by
    intro h; simpa using h
  refine hgoal ?_
  have hfin : JSNum.le (num 0) (roundToNearest2point5 dm) = true := by
    rcases JSNum.num_lt_cases hdm with ⟨a, ha, hab⟩ | hinf
    · rw [ha]; exact floor_goal_num hB (le_of_lt hab)
    · rw [hinf]; exact floor_goal_inf 0
  rcases mem_appendFinal hr with hloop | hfin'
  swap
  · rw [hfin']; simpa using hfin
  rcases buildLadder_mem hloop with ⟨m, hrow, h1, h2⟩
  rw [hrow]
  dsimp only
  rcases JSNum.num_lt_cases hdm with ⟨qv, hdmq, hq0⟩ | hdminf
  · -- finite positive dailyMax
    subst hdmq
    have hq0' : ¬ (qv < 0) := not_lt.mpr (le_of_lt hq0)
    rcases JSNum.toBool_cases hinc' with ⟨i, hieq, hine⟩ | hiinf | hininf
    · subst hieq
      -- with a start rep count at most 1 only the first rung is visited,
      -- at the full (positive) daily max
      have hm0 : ∀ (rv : ℚ), (ladderStart (num qv) (num i) cap true).1 = num rv →
          rv ≤ 1 → JSNum.le (num 0)
            (roundToNearest2point5 (iterAdd (num qv) (num i) m)) = true := by
        intro rv hrv hrv1
        rw [hrv] at h1
        rw [iterSub_le_one_m0 hrv1 h1]
        simpa using floor_goal_num hB (le_of_lt hq0)
      rcases hine.lt_or_lt with hineg | hipos
      · -- negative increment: the start rep count collapses to 1
        have hfl : (⌊1 + qv / i⌋ : ℚ) ≤ 1 := by
          have hinv : i⁻¹ ≤ 0 := inv_nonpos.mpr (le_of_lt hineg)
          have hdiv : qv / i ≤ 0 := by
            rw [div_eq_mul_inv]; nlinarith
          have : (⌊1 + qv / i⌋ : ℚ) ≤ 1 + qv / i := Int.floor_le _
          linarith
        cases cap with
        | nan =>
          have hst1 : (ladderStart (num qv) (num i) nan true).1 = nan := by
            simp [ladderStart, JSNum.div_num _ _ hine]
          rw [hst1] at h1; simp at h1
        | ninf =>
          have hst1 : (ladderStart (num qv) (num i) ninf true).1 = num 1 := by
            simp [ladderStart, JSNum.div_num _ _ hine]
          have hst2 : (ladderStart (num qv) (num i) ninf true).2 = num qv := by
            simp [ladderStart, JSNum.div_num _ _ hine, hq0']
          rw [hst2]
          exact hm0 1 hst1 le_rfl
        | inf =>
          have hmax : Max.max (1:ℚ) ((⌊1 + qv / i⌋ : ℤ) : ℚ) = 1 :=
            max_eq_left (by exact_mod_cast hfl)
          have hst1 : (ladderStart (num qv) (num i) inf true).1 = num 1 := by
            simp [ladderStart, JSNum.div_num _ _ hine, hmax]
          have hst2 : (ladderStart (num qv) (num i) inf true).2 = num qv := by
            simp [ladderStart, JSNum.div_num _ _ hine, hmax, hq0']
          rw [hst2]
          exact hm0 1 hst1 le_rfl
        | num c =>
          have hminle : Min.min c ((⌊1 + qv / i⌋ : ℤ) : ℚ) ≤ 1 :=
            le_trans (min_le_right _ _) (by exact_mod_cast hfl)
          have hmax : Max.max (1:ℚ) (Min.min c ((⌊1 + qv / i⌋ : ℤ) : ℚ)) = 1 :=
            max_eq_left hminle
          have hst1 : (ladderStart (num qv) (num i) (num c) true).1 = num 1 := by
            simp [ladderStart, JSNum.div_num _ _ hine, hmax]
          have hst2 : (ladderStart (num qv) (num i) (num c) true).2 = num qv := by
            simp [ladderStart, JSNum.div_num _ _ hine, hmax, hq0']
          rw [hst2]
          exact hm0 1 hst1 le_rfl
      · -- positive increment: the clamp keeps the start weight at 0
        have hpos : ∀ (wv : ℚ), (ladderStart (num qv) (num i) cap true).2 = num wv →
            0 ≤ wv → JSNum.le (num 0)
              (roundToNearest2point5
                (iterAdd ((ladderStart (num qv) (num i) cap true).2) (num i) m)) = true := by
          intro wv hwv hwv0
          rw [hwv]
          exact floor_goal_pos_inc hB hwv0 (le_of_lt hipos) m
        cases cap with
        | nan =>
          have hst1 : (ladderStart (num qv) (num i) nan true).1 = nan := by
            simp [ladderStart, JSNum.div_num _ _ hine]
          rw [hst1] at h1; simp at h1
        | ninf =>
          have hst2 : (ladderStart (num qv) (num i) ninf true).2 = num qv := by
            simp [ladderStart, JSNum.div_num _ _ hine, hq0']
          exact hpos qv hst2 (le_of_lt hq0)
        | inf =>
          by_cases hcl : qv - i * (Max.max 1 ((⌊1 + qv / i⌋ : ℤ) : ℚ) - 1) < 0
          · have hst2 : (ladderStart (num qv) (num i) inf true).2 = num 0 := by
              simp [ladderStart, JSNum.div_num _ _ hine, hcl]
            exact hpos 0 hst2 le_rfl
          · have hst2 : (ladderStart (num qv) (num i) inf true).2 =
                num (qv - i * (Max.max 1 ((⌊1 + qv / i⌋ : ℤ) : ℚ) - 1)) := by
              simp [ladderStart, JSNum.div_num _ _ hine, hcl]
            exact hpos _ hst2 (not_lt.mp hcl)
        | num c =>
          by_cases hcl : qv - i * (Max.max 1 (Min.min c ((⌊1 + qv / i⌋ : ℤ) : ℚ)) - 1) < 0
          · have hst2 : (ladderStart (num qv) (num i) (num c) true).2 = num 0 := by
              simp [ladderStart, JSNum.div_num _ _ hine, hcl]
            exact hpos 0 hst2 le_rfl
          · have hst2 : (ladderStart (num qv) (num i) (num c) true).2 =
                num (qv - i * (Max.max 1 (Min.min c ((⌊1 + qv / i⌋ : ℤ) : ℚ)) - 1)) := by
              simp [ladderStart, JSNum.div_num _ _ hine, hcl]
            exact hpos _ hst2 (not_lt.mp hcl)
    · -- increment = +Infinity: the start weight degenerates to NaN
      subst hiinf
      cases cap with
      | nan =>
        have hst1 : (ladderStart (num qv) inf nan true).1 = nan := by
          simp [ladderStart]
        rw [hst1] at h1; simp at h1
      | ninf =>
        have hst2 : (ladderStart (num qv) inf ninf true).2 = nan := by
          simp [ladderStart]
        rw [hst2] at h2; simp at h2
      | inf =>
        have hst2 : (ladderStart (num qv) inf inf true).2 = nan := by
          simp [ladderStart]
        rw [hst2] at h2; simp at h2
      | num c =>
        have hmin : Min.min c ((⌊(1:ℚ)⌋ : ℤ) : ℚ) ≤ 1 := by
          simp [Int.floor_one]
        have hmax : Max.max (1:ℚ) (Min.min c ((⌊(1:ℚ)⌋ : ℤ) : ℚ)) = 1 :=
          max_eq_left hmin
        have hst2 : (ladderStart (num qv) inf (num c) true).2 = nan := by
          simp [ladderStart, Int.floor_one, hmax]
        rw [hst2] at h2; simp at h2
    · -- increment = -Infinity: the start weight degenerates to NaN
      subst hininf
      cases cap with
      | nan =>
        have hst1 : (ladderStart (num qv) ninf nan true).1 = nan := by
          simp [ladderStart]
        rw [hst1] at h1; simp at h1
      | ninf =>
        have hst2 : (ladderStart (num qv) ninf ninf true).2 = nan := by
          simp [ladderStart]
        rw [hst2] at h2; simp at h2
      | inf =>
        have hst2 : (ladderStart (num qv) ninf inf true).2 = nan := by
          simp [ladderStart]
        rw [hst2] at h2; simp at h2
      | num c =>
        have hmin : Min.min c ((⌊(1:ℚ)⌋ : ℤ) : ℚ) ≤ 1 := by
          simp [Int.floor_one]
        have hmax : Max.max (1:ℚ) (Min.min c ((⌊(1:ℚ)⌋ : ℤ) : ℚ)) = 1 :=
          max_eq_left hmin
        have hst2 : (ladderStart (num qv) ninf (num c) true).2 = nan := by
          simp [ladderStart, Int.floor_one, hmax]
        rw [hst2] at h2; simp at h2
  · -- dailyMax = +Infinity
    subst hdminf
    rcases JSNum.toBool_cases hinc' with ⟨i, hieq, hine⟩ | hiinf | hininf
    · subst hieq
      rcases hine.lt_or_lt with hineg | hipos
      · -- negative increment
        cases cap with
        | nan =>
          have hst1 : (ladderStart inf (num i) nan true).1 = nan := by
            simp [ladderStart, JSNum.div_inf_num_neg hineg]
          rw [hst1] at h1; simp at h1
        | ninf =>
          have hst2 : (ladderStart inf (num i) ninf true).2 = inf := by
            simp [ladderStart, JSNum.div_inf_num_neg hineg]
          rw [hst2, iterAdd_inf_num]
          exact floor_goal_inf 0
        | inf =>
          have hst2 : (ladderStart inf (num i) inf true).2 = inf := by
            simp [ladderStart, JSNum.div_inf_num_neg hineg]
          rw [hst2, iterAdd_inf_num]
          exact floor_goal_inf 0
        | num c =>
          have hst2 : (ladderStart inf (num i) (num c) true).2 = inf := by
            simp [ladderStart, JSNum.div_inf_num_neg hineg]
          rw [hst2, iterAdd_inf_num]
          exact floor_goal_inf 0
      · -- positive increment
        cases cap with
        | nan =>
          have hst1 : (ladderStart inf (num i) nan true).1 = nan := by
            simp [ladderStart, JSNum.div_inf_num_nonneg (le_of_lt hipos)]
          rw [hst1] at h1; simp at h1
        | ninf =>
          have hst2 : (ladderStart inf (num i) ninf true).2 = inf := by
            simp [ladderStart, JSNum.div_inf_num_nonneg (le_of_lt hipos)]
          rw [hst2, iterAdd_inf_num]
          exact floor_goal_inf 0
        | inf =>
          have hst2 : (ladderStart inf (num i) inf true).2 = nan := by
            simp [ladderStart, JSNum.div_inf_num_nonneg (le_of_lt hipos),
              JSNum.mul_num_inf_pos hipos]
          rw [hst2] at h2; simp at h2
        | num c =>
          have hst2 : (ladderStart inf (num i) (num c) true).2 = inf := by
            simp [ladderStart, JSNum.div_inf_num_nonneg (le_of_lt hipos)]
          rw [hst2, iterAdd_inf_num]
          exact floor_goal_inf 0
    · -- increment = +Infinity
      subst hiinf
      cases cap with
      | nan =>
        have hst1 : (ladderStart inf inf nan true).1 = nan := by
          simp [ladderStart]
        rw [hst1] at h1; simp at h1
      | ninf =>
        have hst1 : (ladderStart inf inf ninf true).1 = nan := by
          simp [ladderStart]
        rw [hst1] at h1; simp at h1
      | inf =>
        have hst1 : (ladderStart inf inf inf true).1 = nan := by
          simp [ladderStart]
        rw [hst1] at h1; simp at h1
      | num c =>
        have hst1 : (ladderStart inf inf (num c) true).1 = nan := by
          simp [ladderStart]
        rw [hst1] at h1; simp at h1
    · -- increment = -Infinity
      subst hininf
      cases cap with
      | nan =>
        have hst1 : (ladderStart inf ninf nan true).1 = nan := by
          simp [ladderStart]
        rw [hst1] at h1; simp at h1
      | ninf =>
        have hst1 : (ladderStart inf ninf ninf true).1 = nan := by
          simp [ladderStart]
        rw [hst1] at h1; simp at h1
      | inf =>
        have hst1 : (ladderStart inf ninf inf true).1 = nan := by
          simp [ladderStart]
        rw [hst1] at h1; simp at h1
      | num c =>
        have hst1 : (ladderStart inf ninf (num c) true).1 = nan := by
          simp [ladderStart]
        rw [hst1] at h1; simp at h1

/-- Witness for `ladderPlan_pullup_weight_floor` at the spec's scenario
`dailyMax = 60`, `increment = 2.5`, `startRepCap = 8`. -/
theorem ladderPlan_pullup_weight_floor_at_60 :
    ((ladderPlan (num 60) (num (5 / 2)) (num 8) true (num 80)).sets.all fun r =>
      JSNum.le (num 0) r.weight) = true :=
  ladderPlan_pullup_weight_floor (num 60) (num (5 / 2)) (num 8) (num 80) (by decide)
